import Mathlib

/-!
Verification development for the i18n engine (`I18n` class) of the
electron-arch library.  The engine loads `messages.<languageId>.json`
files from a directory, flattens each parsed JSON object into a
dotted-key map (`objectToMap`), and serves lookups (`t`) with a
fallback language and runtime language switching (`changeLanguage`).

The TypeScript source is embedded shallowly:

* JavaScript `Map<string, string>` (insertion ordered, `set` overwrites
  in place) becomes an association list with `mapSet` / `mapGet`;
* `JSON.parse` results become the inductive `Json`;
* thrown exceptions become `Except` values (`JsError` models the three
  error classes that can escape the engine: the built-in `TypeError`,
  `I18nError`, and `InvalidParameterError`);
* the mutable singleton instance becomes explicit state passing over
  `I18nState`; methods that mutate the instance return the new state
  even when they throw, because the source mutates fields before
  throwing;
* filesystem reads become an explicit directory snapshot argument.

String primitives used by the source (`split`, `path.normalize`,
`path.isAbsolute`, `path.join`, lodash `isEmpty`) are modelled by
computable char-list functions so that every definition evaluates by
`rfl` / `decide`.
-/

namespace I18n

/-- `lodash _.isEmpty` on a string: true iff the string has length 0. -/
def strIsEmpty (s : String) : Bool :=
  s.data.isEmpty

/-- `lodash _.isEmpty` on a possibly-`undefined` string
(`none` models JS `undefined`/absent). -/
def isEmptyOpt : Option String → Bool
  | none => true
  | some s => strIsEmpty s

/-- JS truthiness of a possibly-`undefined` string:
`undefined` and `""` are falsy. -/
def truthyOpt : Option String → Bool
  | none => false
  | some s => !strIsEmpty s

/-- Char-list worker for `splitChar`.  Mirrors JS `String.split(sep)`:
`"" ↦ [""]`, separators delimit (possibly empty) fields. -/
def splitCharAux (sep : Char) : List Char → List (List Char)
  | [] => [[]]
  | c :: rest =>
    if c = sep then [] :: splitCharAux sep rest
    else
      match splitCharAux sep rest with
      | [] => [[c]]
      | l :: ls => (c :: l) :: ls

/-- JS `s.split(sep)` for a single-character separator. -/
def splitChar (sep : Char) (s : String) : List String :=
  (splitCharAux sep s.data).map (fun l => String.mk l)

/-- Join a list of strings with a separator string
(model of `Array.prototype.join` / `String.intercalate`). -/
def joinChar (sep : String) : List String → String
  | [] => ""
  | [s] => s
  | s :: rest => s ++ sep ++ joinChar sep rest

/-- JS `Map.get`: the value stored for `k`, or `none` for JS `undefined`. -/
def mapGet {α : Type} (m : List (String × α)) (k : String) : Option α :=
  (m.find? (fun p => p.1 = k)).map (fun p => p.2)

/-- JS `Map.set`: overwrite in place if the key is present
(keeping its insertion position), otherwise append. -/
def mapSet {α : Type} (m : List (String × α)) (k : String) (v : α) :
    List (String × α) :=
  if m.any (fun p => p.1 = k) then
    m.map (fun p => if p.1 = k then (k, v) else p)
  else
    m ++ [(k, v)]

/-- JS falsiness of a `Map.get` result: `undefined` and `""` are falsy.
The source tests lookup results with `!translation`. -/
def falsyStr : Option String → Bool
  | none => true
  | some s => strIsEmpty s

/-- `path.isAbsolute` (posix): the path starts with a slash. -/
def isAbsolute (p : String) : Bool :=
  match p.data with
  | c :: _ => c = '/'
  | [] => false

/-- Segment resolution step of Node's posix `path.normalize`:
drop empty and `.` segments, let `..` pop the previous segment
(or survive at the front of a relative path). -/
def normSegs (allowAboveRoot : Bool) (segs : List String) : List String :=
  (segs.foldl
    (fun acc s =>
      if strIsEmpty s || s = "." then acc
      else if s = ".." then
        match acc with
        | [] => if allowAboveRoot then [".."] else []
        | a :: rest => if a = ".." then s :: acc else rest
      else s :: acc)
    []).reverse

/-- Node `path.normalize` (posix): resolve `.` and `..`, collapse
repeated slashes, keep a trailing slash, `"" ↦ "."`. -/
def pathNormalize (p : String) : String :=
  if strIsEmpty p then "."
  else
    let abs := isAbsolute p
    let trailing := p.data.getLast? = some '/'
    let body := joinChar "/" (normSegs (!abs) (splitChar '/' p))
    if strIsEmpty body then
      if abs then "/" else if trailing then "./" else "."
    else
      let body := if trailing then body ++ "/" else body
      if abs then "/" ++ body else body

/-- Node `path.join` (posix) for two arguments: concatenate the
non-empty parts with a slash and normalize. -/
def pathJoin (a b : String) : String :=
  let joined :=
    if strIsEmpty a then b
    else if strIsEmpty b then a
    else a ++ "/" ++ b
  if strIsEmpty joined then "." else pathNormalize joined

/-- JSON values as produced by `JSON.parse` (arrays do not occur in the
translation files the claims are about and are omitted; numbers are
modelled by integers, which is enough to show how non-string leaves are
treated by the engine). -/
inductive Json where
  | str (s : String)
  | num (n : Int)
  | bool (b : Bool)
  | null
  | obj (fields : List (String × Json))

mutual

/-- Structural boolean equality on `Json`. -/
def Json.beq : Json → Json → Bool
  | .str a, .str b => a == b
  | .num a, .num b => a == b
  | .bool a, .bool b => a == b
  | .null, .null => true
  | .obj a, .obj b => Json.beqFields a b
  | _, _ => false
termination_by structural j _ => j

def Json.beqFields : List (String × Json) → List (String × Json) → Bool
  | [], [] => true
  | (k, v) :: r, (k2, v2) :: r2 => k == k2 && Json.beq v v2 && Json.beqFields r r2
  | _, _ => false
termination_by structural l _ => l

end

mutual

theorem Json.beq_refl : ∀ j : Json, Json.beq j j = true
  | .str a => by simp [Json.beq]
  | .num a => by simp [Json.beq]
  | .bool a => by simp [Json.beq]
  | .null => by simp [Json.beq]
  | .obj a => by simpa [Json.beq] using Json.beqFields_refl a
termination_by structural j => j

theorem Json.beqFields_refl : ∀ l : List (String × Json), Json.beqFields l l = true
  | [] => by simp [Json.beqFields]
  | (k, v) :: r => by
      simp [Json.beqFields, Json.beq_refl v, Json.beqFields_refl r]
termination_by structural l => l

end

/-- Two `Json` values with `beq` false are different. -/
theorem Json.ne_of_beq_false {a b : Json} (h : Json.beq a b = false) : a ≠ b := by
  intro he
  rw [he, Json.beq_refl b] at h
  cases h

/-- The error classes that can escape the engine: the JS built-in
`TypeError`, the library's `I18nError` (message plus optional
classifier code, the `causedBy` diagnostic payload is not modelled),
and `InvalidParameterError`. -/
inductive JsError where
  | typeError (message : String)
  | i18nError (message : String) (classifier : Option String)
  | invalidParameterError (message : String)
deriving DecidableEq

/-- Error codes of the filesystem errors thrown by `fs.readdirSync` /
`fs.readFileSync` that the source distinguishes (`error.code`);
`other none` models an error whose `code` field is `undefined`. -/
inductive FsCode where
  | enoent
  | eperm
  | other (code : Option String)
deriving DecidableEq

/-- The classifier the source attaches in the `else` branch:
`error.code ? error.code : null` (an empty-string code is falsy). -/
def fsOtherClassifier : Option String → Option String
  | none => none
  | some s => if strIsEmpty s then none else some s

/-- The initialization object (`I18nInitOptions`): `lng` and
`fallbackLng` are optional (`none` models an absent property),
`loadPath` is required. -/
structure I18nInitOptions where
  lng : Option String
  fallbackLng : Option String
  loadPath : String
deriving DecidableEq

/-- The outcome of reading one file of the load directory:
`fs.readFileSync` threw, `JSON.parse` threw, or a parsed JSON value. -/
inductive FileContent where
  | unreadable (code : FsCode)
  | unparsable
  | parsed (value : Json)

/-- A directory snapshot: `readdirSync` either throws or yields the
file names in order; each name is paired with what reading that file
produces. -/
def DirListing := Except FsCode (List (String × FileContent))

/-- The mutable fields of the `I18n` singleton.  `options`,
`fallBackMessages` and `usingMessages` start out unassigned
(TS `undefined`), modelled by `none`. -/
structure I18nState where
  initialized : Bool
  options : Option I18nInitOptions
  languagesLoaded : List String
  messagesLoaded : List (String × List (String × String))
  fallBackMessages : Option (List (String × String))
  usingLanguage : String
  usingMessages : Option (List (String × String))
deriving DecidableEq

/-- The field values a fresh `I18n` instance is constructed with. -/
def initialState : I18nState :=
  { initialized := false
    options := none
    languagesLoaded := []
    messagesLoaded := []
    fallBackMessages := none
    usingLanguage := "en"
    usingMessages := none }

/-- Key composition of `objectToMap`:
`recursiveKey ? recursiveKey + "." + key : key`.  JS truthiness: an
absent (`undefined`) and an empty-string `recursiveKey` are both
falsy, so neither produces a prefix. -/
def composeKey (recursiveKey : Option String) (key : String) : String :=
  match recursiveKey with
  | some rk => if strIsEmpty rk then key else rk ++ "." ++ key
  | none => key

/-- `Object.keys` on a string enumerates the character indices; the
value at each index is the one-character string, a string leaf.
(Reachable only when a whole translation file parses to a JSON
string.) -/
def strOwnEntries (s : String) : List (String × String) :=
  s.data.enum.map (fun p => (toString p.1, String.mk [p.2]))

mutual

/-- `I18n.objectToMap`: flatten a parsed JSON value into a dotted-key
map.  String values are emitted under the composed key; any other
value is recursed into via `Object.keys` (numbers and booleans have no
own keys and contribute nothing; `Object.keys(null)` throws the
built-in `TypeError`). -/
def objectToMap (obj : Json) (recursiveKey : Option String) :
    Except JsError (List (String × String)) :=
  match obj with
  | .null => .error (.typeError "Cannot convert undefined or null to object")
  | .num _ => .ok []
  | .bool _ => .ok []
  | .str s =>
      .ok ((strOwnEntries s).foldl
        (fun m p => mapSet m (composeKey recursiveKey p.1) p.2) [])
  | .obj fields => objFields fields recursiveKey []
termination_by structural obj

/-- The `for (let key of Object.keys(obj))` loop of `objectToMap`,
accumulating into `map`.  A string value is `set` directly; any other
value is flattened by a recursive call with the field's key as
`recursiveKey`, and the returned entries are re-prefixed with the
current `recursiveKey`. -/
def objFields (fields : List (String × Json)) (recursiveKey : Option String)
    (map : List (String × String)) : Except JsError (List (String × String)) :=
  match fields with
  | [] => .ok map
  | (key, .str s) :: rest =>
      objFields rest recursiveKey (mapSet map (composeKey recursiveKey key) s)
  | (key, value) :: rest =>
      match objectToMap value (some key) with
      | .error e => .error e
      | .ok subMab =>
          objFields rest recursiveKey
            (subMab.foldl (fun m p => mapSet m (composeKey recursiveKey p.1) p.2) map)
termination_by structural fields

end

/-- `I18n.validateInitOptions`.  Mutates the caller's options object
(defaulting `lng` / `fallbackLng` to `"en"` when lodash-empty) before
checking `loadPath`; the first component is the validated (mutated)
options, the second is the content of the caller's object after the
call — the same object, so the same value whenever one exists. -/
def validateInitOptions (options : Option I18nInitOptions) :
    Except JsError I18nInitOptions × Option I18nInitOptions :=
  match options with
  | none =>
      (.error (.invalidParameterError "The options object must be informed"), none)
  | some opts =>
      let opts :=
        if isEmptyOpt opts.lng then { opts with lng := some "en" } else opts
      let opts :=
        if isEmptyOpt opts.fallbackLng then { opts with fallbackLng := some "en" }
        else opts
      if strIsEmpty opts.loadPath then
        (.error (.i18nError "The options object loadPath property cannot be empty."
            (some "INIT_OBJECT_ERROR")), some opts)
      else if !isAbsolute opts.loadPath then
        (.error (.i18nError "The loadPath should be an absolute directory"
            (some "INIT_OBJECT_ERROR")), some opts)
      else
        (.ok opts, some opts)

/-- The `I18nError` thrown when `fs.readdirSync` on the load path fails. -/
def readdirError (loadPath : String) (c : FsCode) : JsError :=
  let msg := "An error occurred reading the translation files from the directory "
    ++ loadPath ++ "."
  match c with
  | .enoent => .i18nError (msg ++ " The directory does not exist.") (some "ENOENT")
  | .eperm => .i18nError (msg ++ " There was a permission problem.") (some "EPERM")
  | .other co => .i18nError (msg ++ " Unexpected problem.") (fsOtherClassifier co)

/-- The `I18nError` thrown when `fs.readFileSync` on one translation
file fails. -/
def readFileError (filePath : String) (c : FsCode) : JsError :=
  let msg := "An error occurred reading the translation file " ++ filePath ++ "."
  match c with
  | .enoent => .i18nError (msg ++ " The file does not exist.") (some "ENOENT")
  | .eperm => .i18nError (msg ++ " There was a permission problem.") (some "EPERM")
  | .other co => .i18nError (msg ++ " Unexpected problem.") (fsOtherClassifier co)

/-- The `I18nError` thrown when `JSON.parse` on one translation file
fails. -/
def parseError (filePath : String) : JsError :=
  .i18nError ("It was not possible to parse the messages file " ++ filePath
    ++ ". It could be corrupted.") (some "PARSE_ERROR")

/-- Reading the content of a listed file name from the directory
snapshot.  Names come from the same snapshot, so the lookup always
succeeds; a name that vanished between listing and reading would
surface as `ENOENT`, which is what the default models. -/
def lookupContent (files : List (String × FileContent)) (name : String) :
    FileContent :=
  match files.find? (fun p => p.1 = name) with
  | some p => p.2
  | none => .unreadable .enoent

/-- JS strict `!==` between a language id and the possibly-`undefined`
`fallbackLng` property: a string is never identical to `undefined`. -/
def langNeFallback (languageId : String) (fallbackLng : Option String) : Bool :=
  match fallbackLng with
  | some fb => languageId != fb
  | none => true

/-- The commit phase for one recognized translation file (source lines
`this._languagesLoaded.push(...)` onward): record the language, store
the flattened map in `_messagesLoaded` unless the language is the
configured fallback (stored in `_fallBackMessages` instead), and set
`_usingMessages` when the language is the one in current use. -/
def commitFile (opts : I18nInitOptions) (langId : String)
    (messages : List (String × String)) (st : I18nState) : I18nState :=
  { st with
    languagesLoaded := st.languagesLoaded ++ [langId]
    messagesLoaded :=
      if langNeFallback langId opts.fallbackLng then
        mapSet st.messagesLoaded langId messages
      else st.messagesLoaded
    fallBackMessages :=
      if langNeFallback langId opts.fallbackLng then st.fallBackMessages
      else some messages
    usingMessages :=
      if langId = st.usingLanguage then some messages else st.usingMessages }

/-- The `fileList.forEach` body of `I18n.init`.  Each recognized file
(`messages.<id>.json`, exactly three dot-separated parts with strict
string comparison on the first and last) is read, parsed, flattened,
and committed directly into the instance fields; a failure aborts the
loop, keeping every mutation already performed. -/
def initLoop (opts : I18nInitOptions) (files : List (String × FileContent)) :
    List String → I18nState → I18nState × Except JsError Unit
  | [], st => (st, .ok ())
  | fileName :: rest, st =>
    match splitChar '.' fileName with
    | [base, langId, ext] =>
      if ext ≠ "json" ∨ base ≠ "messages" then initLoop opts files rest st
      else
        match lookupContent files fileName with
        | .unreadable c =>
            (st, .error (readFileError (pathJoin opts.loadPath fileName) c))
        | .unparsable =>
            (st, .error (parseError (pathJoin opts.loadPath fileName)))
        | .parsed obj =>
          match objectToMap obj none with
          | .error e => (st, .error e)
          | .ok messages => initLoop opts files rest (commitFile opts langId messages st)
    | _ => initLoop opts files rest st

instance : DecidableEq (Except JsError Unit) := fun a b =>
  match a, b with
  | .ok x, .ok y => if h : x = y then .isTrue (by rw [h]) else
      .isFalse (fun he => by cases he; exact h rfl)
  | .error x, .error y => if h : x = y then .isTrue (by rw [h]) else
      .isFalse (fun he => by cases he; exact h rfl)
  | .ok _, .error _ => .isFalse (fun he => by cases he)
  | .error _, .ok _ => .isFalse (fun he => by cases he)

instance : DecidableEq (Except JsError String) := fun a b =>
  match a, b with
  | .ok x, .ok y => if h : x = y then .isTrue (by rw [h]) else
      .isFalse (fun he => by cases he; exact h rfl)
  | .error x, .error y => if h : x = y then .isTrue (by rw [h]) else
      .isFalse (fun he => by cases he; exact h rfl)
  | .ok _, .error _ => .isFalse (fun he => by cases he)
  | .error _, .ok _ => .isFalse (fun he => by cases he)

/-- What one `init` call produces: the thrown error or unit, the
instance state after the call (the source mutates fields before
throwing, so failures keep partial mutations), and the content of the
caller's options object after the call (the engine stores and mutates
that same object). -/
structure InitOut where
  res : Except JsError Unit
  st : I18nState
  callerOpts : Option I18nInitOptions
deriving DecidableEq

/-- The field assignments `init` performs after validation and before
the load loop: store the (mutated) options object and, since `lng` is
truthy after validation, adopt it as the language in use
(`if (this._options.lng) this._usingLanguage = this._options.lng`). -/
def preLoopState (opts : I18nInitOptions) (st : I18nState) : I18nState :=
  let st := { st with options := some opts }
  match opts.lng with
  | some l => if strIsEmpty l then st else { st with usingLanguage := l }
  | none => st

/-- `I18n.init`.  Rejects a second initialization, validates and
stores the (mutated) options object, normalizes its `loadPath` in
place, lists the directory, loads every recognized translation file,
and finally checks that the active and fallback languages were both
found before setting the `initialized` flag. -/
def init (options : Option I18nInitOptions) (dir : DirListing)
    (st : I18nState) : InitOut :=
  if st.initialized then
    ⟨.error (.i18nError "The i18n engine is already initialized." none), st, options⟩
  else
    match validateInitOptions options with
    | (.error e, callerOpts) => ⟨.error e, st, callerOpts⟩
    | (.ok opts0, _) =>
      let opts := { opts0 with loadPath := pathNormalize opts0.loadPath }
      let st := preLoopState opts st
      match dir with
      | .error c => ⟨.error (readdirError opts.loadPath c), st, some opts⟩
      | .ok files =>
        match initLoop opts files (files.map (fun p => p.1)) st with
        | (st, .error e) => ⟨.error e, st, some opts⟩
        | (st, .ok _) =>
          if st.usingMessages.isNone then
            ⟨.error (.i18nError
              "The translation file to the current configured language was not found."
              none), st, some opts⟩
          else if st.fallBackMessages.isNone then
            ⟨.error (.i18nError
              "The translation file to the fallback language was not found."
              none), st, some opts⟩
          else
            ⟨.ok (), { st with initialized := true }, some opts⟩

/-- The `I18nError` thrown by `t` and `changeLanguage` before
initialization. -/
def notInitializedError : JsError :=
  .i18nError
    "The i18n engine was not initialized. Call the init method before using this service."
    none

/-- `this._options.fallbackLng` as read by `t` / `changeLanguage`
(`options` is always assigned in states where these reads happen). -/
def fallbackLngOf (st : I18nState) : Option String :=
  match st.options with
  | some o => o.fallbackLng
  | none => none

/-- `this._usingLanguage !== this._options.fallbackLng`. -/
def usingNeFallback (st : I18nState) : Bool :=
  langNeFallback st.usingLanguage (fallbackLngOf st)

/-- `I18n.t`: translate a key in the active language with fallback.
`_usingMessages` / `_fallBackMessages` are always assigned once
`initialized` is true, which is the only way past the first guard;
`getD []` is the total rendering of those reads. -/
def t (key : String) (st : I18nState) : Except JsError String :=
  if !st.initialized then .error notInitializedError
  else if strIsEmpty key then .ok ""
  else
    let translation := mapGet (st.usingMessages.getD []) key
    let translation :=
      if falsyStr translation && usingNeFallback st then
        mapGet (st.fallBackMessages.getD []) key
      else translation
    if falsyStr translation then .ok key
    else .ok (translation.getD key)

/-- `I18n.changeLanguage`: switch the active language among the loaded
ones.  Note that `_usingLanguage` is assigned before the defensive
lookup in `_messagesLoaded`, so the defensive failure keeps the new
language. -/
def changeLanguage (languageId : String) (st : I18nState) :
    Except JsError Unit × I18nState :=
  if !st.initialized then (.error notInitializedError, st)
  else if strIsEmpty languageId then
    (.error (.invalidParameterError "The languageId parameter must not be empty."), st)
  else if !(st.languagesLoaded.contains languageId) then
    (.error (.i18nError ("The language " ++ languageId ++ " was not loaded.") none), st)
  else if st.usingLanguage = languageId then (.ok (), st)
  else
    let st := { st with usingLanguage := languageId }
    if langNeFallback languageId (fallbackLngOf st) then
      match mapGet st.messagesLoaded languageId with
      | some messages => (.ok (), { st with usingMessages := some messages })
      | none =>
          (.error (.i18nError ("The translations for the language " ++ languageId
            ++ " were not found.") none), st)
    else
      (.ok (), { st with usingMessages := st.fallBackMessages })

/-- One public operation on the engine. -/
inductive Op where
  | initOp (options : Option I18nInitOptions) (dir : DirListing)
  | translateOp (key : String)
  | changeOp (languageId : String)

/-- The state after one public operation (`t` never mutates). -/
def step (st : I18nState) : Op → I18nState
  | .initOp o d => (init o d st).st
  | .translateOp _ => st
  | .changeOp l => (changeLanguage l st).2

/-- The state of the singleton after a sequence of public operations
starting from a fresh instance. -/
def run (ops : List Op) : I18nState :=
  ops.foldl step initialState

/-- A public operation other than `init`. -/
inductive PostOp where
  | translateOp (key : String)
  | changeOp (languageId : String)

/-- The state after one non-`init` operation. -/
def postStep (st : I18nState) : PostOp → I18nState
  | .translateOp _ => st
  | .changeOp l => (changeLanguage l st).2

/-- The state after a sequence of non-`init` operations. -/
def applyPost (st : I18nState) (ops : List PostOp) : I18nState :=
  ops.foldl postStep st

/-- The invariant maintained by a catalog whose first `init` succeeded
on a fresh instance: it is initialized, the language in use is loaded,
and every loaded language other than the configured fallback has its
mapping in `messagesLoaded`. -/
def CleanInv (st : I18nState) : Prop :=
  st.initialized = true ∧
    st.usingLanguage ∈ st.languagesLoaded ∧
    ∀ fb, fallbackLngOf st = some fb →
      ∀ l ∈ st.languagesLoaded, l ≠ fb → (mapGet st.messagesLoaded l).isSome = true

/-! ### Re-nesting, modelled from the spec

The spec's round-trip property talks about "re-nesting the resulting
dotted-key map by splitting each key on `.`".  The source has no such
function, so the following definitions are modelled from the spec's
words: split every flat key on `.` and insert the value at that path
of a nested object, creating intermediate objects as needed. -/

/-- Splitting a composed key on `.` (JS `key.split('.')`). -/
def splitDots (key : String) : List String :=
  splitChar '.' key

/-- Modelled from the spec: insert one value at a dotted path of a
nested JSON object.  The last path segment stores the string; every
earlier segment selects (or creates) an intermediate object. -/
def insertPath (fields : List (String × Json)) (path : List String)
    (v : String) : List (String × Json) :=
  match path with
  | [] => fields
  | [k] => mapSet fields k (.str v)
  | k :: rest =>
      match mapGet fields k with
      | some (.obj sub) => mapSet fields k (.obj (insertPath sub rest v))
      | _ => mapSet fields k (.obj (insertPath [] rest v))
termination_by structural path

/-- Modelled from the spec: re-nest a flat dotted-key map into a JSON
object by splitting each key on `.`. -/
def nestFromSpec (flat : List (String × String)) : Json :=
  .obj (flat.foldl (fun fields p => insertPath fields (splitDots p.1) p.2) [])

/-- A key with no `.` in it (so that composed keys split back into the
original path). -/
def dotFree (key : String) : Bool :=
  !(key.data.contains '.')

/-- A key holding a sub-object must be non-empty: an empty-string
`recursiveKey` is falsy in JS, so the source would flatten the
sub-object's entries without any prefix and the composed keys could
not be split back. -/
def objKeyOk (k : String) : Json → Bool
  | .obj _ => !strIsEmpty k
  | _ => true

mutual

/-- Well-formed translation fields for the round-trip law: keys are
dot-free and distinct within each object, keys holding sub-objects are
non-empty, and every value is a string leaf or a non-empty well-formed
object. -/
def wfFields : List (String × Json) → Bool
  | [] => true
  | (k, v) :: rest =>
      dotFree k && objKeyOk k v && wfValue v && rest.all (fun p => p.1 != k)
        && wfFields rest
termination_by structural l => l

/-- Well-formed values: string leaves, or non-empty well-formed
objects. -/
def wfValue : Json → Bool
  | .str _ => true
  | .obj fields => !fields.isEmpty && wfFields fields
  | _ => false
termination_by structural j => j

end

/-- Pure description of what `objFields` produces on well-formed input
(no accumulator, no overwriting): string leaves in order, object
values flattened recursively and re-prefixed with the composed key. -/
def flatF : List (String × Json) → Option String → List (String × String)
  | [], _ => []
  | (k, .str s) :: rest, rk => (composeKey rk k, s) :: flatF rest rk
  | (k, .obj sub) :: rest, rk =>
      (flatF sub (some k)).map (fun p => (composeKey rk p.1, p.2)) ++ flatF rest rk
  | _ :: rest, rk => flatF rest rk

/-- The leaf paths of a fields list, as segment lists: the composed
key of a leaf is its path joined with dots. -/
def flatPaths : List (String × Json) → List (List String × String)
  | [] => []
  | (k, .str s) :: rest => ([k], s) :: flatPaths rest
  | (k, .obj sub) :: rest =>
      (flatPaths sub).map (fun p => (k :: p.1, p.2)) ++ flatPaths rest
  | _ :: rest => flatPaths rest

/-! ### Concrete scenarios used by counterexamples and witnesses -/

/-- C1 scenario, first call: only a `fr` file, so the `en` fallback
check fails after `fr` was already committed. -/
def c1OptionsFirst : Option I18nInitOptions := some ⟨some "fr", some "en", "/one"⟩

/-- C1 scenario, first directory. -/
def c1DirFirst : DirListing :=
  .ok [("messages.fr.json", .parsed (.obj [("greeting", .str "Bonjour")]))]

/-- C1 scenario, second call: a directory with only an `en` file. -/
def c1OptionsSecond : Option I18nInitOptions := some ⟨some "fr", some "en", "/two"⟩

/-- C1 scenario, second directory (no `fr` file at all). -/
def c1DirSecond : DirListing :=
  .ok [("messages.en.json", .parsed (.obj [("greeting", .str "Hello")]))]

/-- C2 scenario: the active `fr` language stores `"a" ↦ ""`. -/
def c2Options : Option I18nInitOptions := some ⟨some "fr", some "en", "/loc"⟩

/-- C2 scenario directory. -/
def c2Dir : DirListing :=
  .ok [("messages.fr.json", .parsed (.obj [("a", .str ""), ("b", .str "B")])),
       ("messages.en.json", .parsed (.obj [("a", .str "X")]))]

/-- C3 witness input: the spec's own example object. -/
def c3Example : List (String × Json) :=
  [("greeting", .str "Hello"),
   ("menu", .obj [("file", .str "File"), ("edit", .str "Edit")])]

/-- C4 scenario: the fallback `en` language stores `"a" ↦ ""`, a key
the active `fr` language does not have. -/
def c4Options : Option I18nInitOptions := some ⟨some "fr", some "en", "/loc"⟩

/-- C4 scenario directory. -/
def c4Dir : DirListing :=
  .ok [("messages.fr.json", .parsed (.obj [("b", .str "B")])),
       ("messages.en.json", .parsed (.obj [("a", .str ""), ("b2", .str "B2")]))]

/-- C5 witness scenario: a successful initialization. -/
def c5Options : Option I18nInitOptions := some ⟨some "en", some "en", "/w"⟩

/-- C5 witness directory. -/
def c5Dir : DirListing :=
  .ok [("messages.en.json", .parsed (.obj [("a", .str "A")]))]

/-- C6 scenario, first call: `en` is committed as the fallback of this
call (so it never enters `messagesLoaded`), then the call fails
because no `fr` file exists. -/
def c6OptionsFirst : Option I18nInitOptions := some ⟨some "fr", some "en", "/p"⟩

/-- C6 scenario, first directory. -/
def c6DirFirst : DirListing :=
  .ok [("messages.en.json", .parsed (.obj [("k", .str "E")]))]

/-- C6 scenario, second call: a different fallback (`pt`), so the
leftover `en` entry of `languagesLoaded` has no mapping anywhere. -/
def c6OptionsSecond : Option I18nInitOptions := some ⟨some "fr", some "pt", "/q"⟩

/-- C6 scenario, second directory. -/
def c6DirSecond : DirListing :=
  .ok [("messages.fr.json", .parsed (.obj [("k", .str "F")])),
       ("messages.pt.json", .parsed (.obj [("k", .str "P")]))]

/-- C7 scenario, first call: loads `fr` (setting `_usingMessages`),
then fails on the missing fallback file. -/
def c7OptionsFirst : Option I18nInitOptions := some ⟨some "fr", some "en", "/one"⟩

/-- C7 scenario, first directory. -/
def c7DirFirst : DirListing :=
  .ok [("messages.fr.json", .parsed (.obj [("greeting", .str "Bonjour")]))]

/-- C7 scenario, second call: asks for `de`, which no directory ever
provided; the leftover `_usingMessages` makes the call succeed. -/
def c7OptionsSecond : Option I18nInitOptions := some ⟨some "de", some "en", "/two"⟩

/-- C7 scenario, second directory. -/
def c7DirSecond : DirListing :=
  .ok [("messages.en.json", .parsed (.obj [("greeting", .str "Hello")]))]

/-- C9 witness options: absent `lng`, empty `fallbackLng`, and a
non-normalized absolute `loadPath`. -/
def c9Options : I18nInitOptions := ⟨none, some "", "/cfg/../cfg/i18n"⟩

/-- C9 witness directory. -/
def c9Dir : DirListing :=
  .ok [("messages.en.json", .parsed (.obj [("a", .str "A")]))]

/-! ## Helper lemmas -/

theorem t_not_initialized (key : String) (st : I18nState)
    (h : st.initialized = false) : t key st = .error notInitializedError := by
  simp [t, h]

theorem changeLanguage_not_initialized (languageId : String) (st : I18nState)
    (h : st.initialized = false) :
    changeLanguage languageId st = (.error notInitializedError, st) := by
  simp [changeLanguage, h]

theorem preLoopState_fields (opts : I18nInitOptions) (st : I18nState) :
    (preLoopState opts st).initialized = st.initialized ∧
      (preLoopState opts st).options = some opts ∧
      (preLoopState opts st).languagesLoaded = st.languagesLoaded ∧
      (preLoopState opts st).messagesLoaded = st.messagesLoaded ∧
      (preLoopState opts st).fallBackMessages = st.fallBackMessages ∧
      (preLoopState opts st).usingMessages = st.usingMessages := by
  simp only [preLoopState]
  split
  · split <;> exact ⟨rfl, rfl, rfl, rfl, rfl, rfl⟩
  · exact ⟨rfl, rfl, rfl, rfl, rfl, rfl⟩

theorem commitFile_fields (opts : I18nInitOptions) (langId : String)
    (messages : List (String × String)) (st : I18nState) :
    (commitFile opts langId messages st).initialized = st.initialized ∧
      (commitFile opts langId messages st).options = st.options ∧
      (commitFile opts langId messages st).usingLanguage = st.usingLanguage ∧
      (commitFile opts langId messages st).languagesLoaded
        = st.languagesLoaded ++ [langId] :=
  ⟨rfl, rfl, rfl, rfl⟩

theorem initLoop_preserves (opts : I18nInitOptions)
    (files : List (String × FileContent)) (names : List String) (st : I18nState) :
    ((initLoop opts files names st).1).initialized = st.initialized ∧
      ((initLoop opts files names st).1).options = st.options ∧
      ((initLoop opts files names st).1).usingLanguage = st.usingLanguage ∧
      ∃ add, ((initLoop opts files names st).1).languagesLoaded
        = st.languagesLoaded ++ add := by
  induction names generalizing st with
  | nil => exact ⟨rfl, rfl, rfl, [], by simp [initLoop]⟩
  | cons fileName rest ih =>
    simp only [initLoop]
    split
    · split
      · exact ih st
      · split
        · exact ⟨rfl, rfl, rfl, [], by simp⟩
        · exact ⟨rfl, rfl, rfl, [], by simp⟩
        · split
          · exact ⟨rfl, rfl, rfl, [], by simp⟩
          · obtain ⟨h1, h2, h3, add, h4⟩ := ih (commitFile opts _ _ st)
            obtain ⟨c1, c2, c3, c4⟩ := commitFile_fields opts _ _ st
            refine ⟨h1.trans c1, h2.trans c2, h3.trans c3, ?_⟩
            rw [h4, c4, List.append_assoc]
            exact ⟨_, rfl⟩
    · exact ih st

theorem initLoop_out (opts : I18nInitOptions) (files : List (String × FileContent))
    (names : List String) (st stL : I18nState) (r : Except JsError Unit)
    (h : initLoop opts files names st = (stL, r)) :
    stL.initialized = st.initialized ∧ stL.options = st.options ∧
      stL.usingLanguage = st.usingLanguage ∧
      ∃ add, stL.languagesLoaded = st.languagesLoaded ++ add := by
  have hp := initLoop_preserves opts files names st
  rwa [h] at hp

/-! ## C1: what a failed initialization leaves behind -/

/-- C1 counterexample: the first `init` fails on the missing fallback
file, yet the `fr` language and messages it loaded stay committed; a
second `init`, whose directory contains no `fr` file at all, then
succeeds and `translate` serves the first (failed) call's `fr`
translation — the partial commit is observable. -/
theorem c1_counterexample :
    (init c1OptionsFirst c1DirFirst initialState).res
        = .error (.i18nError
            "The translation file to the fallback language was not found." none) ∧
      (init c1OptionsFirst c1DirFirst initialState).st.languagesLoaded = ["fr"] ∧
      (run [.initOp c1OptionsFirst c1DirFirst,
            .initOp c1OptionsSecond c1DirSecond]).initialized = true ∧
      t "greeting" (run [.initOp c1OptionsFirst c1DirFirst,
            .initOp c1OptionsSecond c1DirSecond]) = .ok "Bonjour" := by
  exact ⟨by decide, by decide, by decide, by decide⟩

/-- C1 (amended): when `initialize` fails on a not-yet-initialized
catalog, the `initialized` flag stays unset — so `translate` and
`changeLanguage` still fail with the not-initialized `I18nError` — but
the internal accumulation is not rolled back: the loaded-language list
only ever grows, and whatever was committed before the failure stays
visible to a subsequent `initialize` call. -/
theorem init_failure_leaves_uninitialized (o : Option I18nInitOptions)
    (dir : DirListing) (st : I18nState) (e : JsError)
    (hinit : st.initialized = false)
    (hfail : (init o dir st).res = .error e) :
    (init o dir st).st.initialized = false ∧
      (∀ key, t key (init o dir st).st = .error notInitializedError) ∧
      (∀ l, changeLanguage l (init o dir st).st
        = (.error notInitializedError, (init o dir st).st)) ∧
      ∃ add, (init o dir st).st.languagesLoaded = st.languagesLoaded ++ add := by
  have hcore : (init o dir st).st.initialized = false ∧
      ∃ add, (init o dir st).st.languagesLoaded = st.languagesLoaded ++ add := by
    revert hfail
    simp only [init, hinit, Bool.false_eq_true, if_false]
    split
    · intro _
      exact ⟨hinit, [], by simp⟩
    · split
      · intro _
        refine ⟨((preLoopState_fields _ st).1).trans hinit, [], ?_⟩
        rw [(preLoopState_fields _ st).2.2.1]
        simp
      · split
        · rename_i stL eL hloop
          intro _
          obtain ⟨h1, _, _, add, h4⟩ := initLoop_out _ _ _ _ _ _ hloop
          refine ⟨h1.trans (((preLoopState_fields _ st).1).trans hinit), add, ?_⟩
          rw [h4, (preLoopState_fields _ st).2.2.1]
        · rename_i stL u hloop
          split
          · intro _
            obtain ⟨h1, _, _, add, h4⟩ := initLoop_out _ _ _ _ _ _ hloop
            refine ⟨h1.trans (((preLoopState_fields _ st).1).trans hinit), add, ?_⟩
            rw [h4, (preLoopState_fields _ st).2.2.1]
          · split
            · intro _
              obtain ⟨h1, _, _, add, h4⟩ := initLoop_out _ _ _ _ _ _ hloop
              refine ⟨h1.trans (((preLoopState_fields _ st).1).trans hinit), add, ?_⟩
              rw [h4, (preLoopState_fields _ st).2.2.1]
            · exact fun h => nomatch h
  exact ⟨hcore.1, fun key => t_not_initialized key _ hcore.1,
    fun l => changeLanguage_not_initialized l _ hcore.1, hcore.2⟩

/-- C1 witness: the failed first call of the C1 scenario. -/
theorem init_failure_leaves_uninitialized_witness :
    initialState.initialized = false ∧
      (init c1OptionsFirst c1DirFirst initialState).res
        = .error (.i18nError
            "The translation file to the fallback language was not found." none) ∧
      ((init c1OptionsFirst c1DirFirst initialState).st.initialized = false ∧
        (∀ key, t key (init c1OptionsFirst c1DirFirst initialState).st
          = .error notInitializedError) ∧
        (∀ l, changeLanguage l (init c1OptionsFirst c1DirFirst initialState).st
          = (.error notInitializedError,
              (init c1OptionsFirst c1DirFirst initialState).st)) ∧
        ∃ add, (init c1OptionsFirst c1DirFirst initialState).st.languagesLoaded
          = initialState.languagesLoaded ++ add) :=
  ⟨rfl, by decide,
    init_failure_leaves_uninitialized c1OptionsFirst c1DirFirst initialState
      (.i18nError "The translation file to the fallback language was not found." none)
      rfl (by decide)⟩

/-! ## C9: in-place mutation of the options object -/

theorem validate_ok (o : I18nInitOptions)
    (hpath : strIsEmpty o.loadPath = false) (habs : isAbsolute o.loadPath = true) :
    validateInitOptions (some o)
      = (.ok { lng := if isEmptyOpt o.lng then some "en" else o.lng,
               fallbackLng := if isEmptyOpt o.fallbackLng then some "en"
                 else o.fallbackLng,
               loadPath := o.loadPath },
         some { lng := if isEmptyOpt o.lng then some "en" else o.lng,
                fallbackLng := if isEmptyOpt o.fallbackLng then some "en"
                  else o.fallbackLng,
                loadPath := o.loadPath }) := by
  cases h1 : isEmptyOpt o.lng <;> cases h2 : isEmptyOpt o.fallbackLng <;>
    simp [validateInitOptions, h1, h2, hpath, habs]

/-- C9: on a fresh catalog with a valid `loadPath`, `init` mutates the
caller's options object itself: empty/absent `lng` and `fallbackLng`
become `"en"`, `loadPath` is replaced by its normalized form, nothing
else changes, and the catalog's stored `options` is that same mutated
object in every outcome of the call. -/
theorem init_mutates_options_in_place (o : I18nInitOptions) (dir : DirListing)
    (st : I18nState)
    (hinit : st.initialized = false)
    (hpath : strIsEmpty o.loadPath = false)
    (habs : isAbsolute o.loadPath = true) :
    (init (some o) dir st).callerOpts
        = some { lng := if isEmptyOpt o.lng then some "en" else o.lng,
                 fallbackLng := if isEmptyOpt o.fallbackLng then some "en"
                   else o.fallbackLng,
                 loadPath := pathNormalize o.loadPath } ∧
      (init (some o) dir st).st.options = (init (some o) dir st).callerOpts := by
  have hv := validate_ok o hpath habs
  simp only [init, hinit, Bool.false_eq_true, if_false, hv]
  split
  · refine ⟨rfl, ?_⟩
    rw [(preLoopState_fields _ st).2.1]
  · split
    · rename_i stL eL hloop
      obtain ⟨_, h2, _, _⟩ := initLoop_out _ _ _ _ _ _ hloop
      refine ⟨rfl, ?_⟩
      rw [h2, (preLoopState_fields _ st).2.1]
    · rename_i stL u hloop
      obtain ⟨_, h2, _, _⟩ := initLoop_out _ _ _ _ _ _ hloop
      split
      · refine ⟨rfl, ?_⟩
        rw [h2, (preLoopState_fields _ st).2.1]
      · split
        · refine ⟨rfl, ?_⟩
          rw [h2, (preLoopState_fields _ st).2.1]
        · refine ⟨rfl, ?_⟩
          show stL.options = _
          rw [h2, (preLoopState_fields _ st).2.1]

/-- C9 witness: absent `lng`, empty `fallbackLng`, and a loadPath that
normalization rewrites. -/
theorem init_mutates_options_in_place_witness :
    initialState.initialized = false ∧
      strIsEmpty c9Options.loadPath = false ∧
      isAbsolute c9Options.loadPath = true ∧
      ((init (some c9Options) c9Dir initialState).callerOpts
          = some { lng := if isEmptyOpt c9Options.lng then some "en"
                     else c9Options.lng,
                   fallbackLng := if isEmptyOpt c9Options.fallbackLng then some "en"
                     else c9Options.fallbackLng,
                   loadPath := pathNormalize c9Options.loadPath } ∧
        (init (some c9Options) c9Dir initialState).st.options
          = (init (some c9Options) c9Dir initialState).callerOpts) :=
  ⟨rfl, by decide, by decide,
    init_mutates_options_in_place c9Options c9Dir initialState rfl
      (by decide) (by decide)⟩

/-! ## C5: double initialization is rejected without any state change -/

/-- C5: calling `initialize` on an already-initialized catalog fails
with the already-initialized `I18nError` (the spec's `CatalogError`)
and returns with the state exactly as it was. -/
theorem double_init_rejected (options : Option I18nInitOptions) (dir : DirListing)
    (st : I18nState) (h : st.initialized = true) :
    (init options dir st).res
        = .error (.i18nError "The i18n engine is already initialized." none) ∧
      (init options dir st).st = st := by
  simp [init, h]

/-- C5 witness: a concrete successful initialization followed by a
rejected second call. -/
theorem double_init_rejected_witness :
    (init c5Options c5Dir initialState).st.initialized = true ∧
      ((init c5Options c5Dir (init c5Options c5Dir initialState).st).res
          = .error (.i18nError "The i18n engine is already initialized." none) ∧
        (init c5Options c5Dir (init c5Options c5Dir initialState).st).st
          = (init c5Options c5Dir initialState).st) :=
  ⟨by decide, double_init_rejected c5Options c5Dir _ (by decide)⟩

/-! ## C8: null options -/

/-- C8 counterexample: with a null `options` argument, `init` fails
with `InvalidParameterError`, which is a different error class from
`I18nError` (the class the spec names `CatalogError`); no
`ConfigurationError` class exists in the code. -/
theorem c8_counterexample :
    (init none (.ok []) initialState).res
        = .error (.invalidParameterError "The options object must be informed") ∧
      ∀ msg cls, (init none (.ok []) initialState).res
        ≠ .error (.i18nError msg cls) := by
  have h1 : (init none (.ok []) initialState).res
      = .error (.invalidParameterError "The options object must be informed") := by
    decide
  refine ⟨h1, ?_⟩
  intro msg cls
  rw [h1]
  simp

/-- C8 (amended): on a not-yet-initialized catalog, a null `options`
argument makes `init` fail with `InvalidParameterError`. -/
theorem init_null_options_invalid_parameter (dir : DirListing) (st : I18nState)
    (h : st.initialized = false) :
    (init none dir st).res
      = .error (.invalidParameterError "The options object must be informed") := by
  simp [init, h, validateInitOptions]

/-- C8 witness. -/
theorem init_null_options_invalid_parameter_witness :
    initialState.initialized = false ∧
      (init none (.ok []) initialState).res
        = .error (.invalidParameterError "The options object must be informed") :=
  ⟨rfl, init_null_options_invalid_parameter (.ok []) initialState rfl⟩

/-! ## C2: lookup of a key present in the active messages -/

/-- C2 counterexample: a reachable initialized catalog whose active
mapping stores `"a" ↦ ""`; `translate "a"` consults the fallback and
returns `"X"` instead of the stored `""` (the source tests the lookup
result with JS truthiness, and `""` is falsy). -/
theorem c2_counterexample :
    (init c2Options c2Dir initialState).res = .ok () ∧
      mapGet ((init c2Options c2Dir initialState).st.usingMessages.getD []) "a"
        = some "" ∧
      t "a" (init c2Options c2Dir initialState).st = .ok "X" ∧
      t "a" (init c2Options c2Dir initialState).st ≠ .ok "" := by
  exact ⟨by decide, by decide, by decide, by decide⟩

/-- C2 (amended): for an initialized catalog and a non-empty key whose
stored value in the active messages is non-empty, `translate` returns
exactly that stored value. -/
theorem t_active_hit (st : I18nState) (k v : String)
    (hinit : st.initialized = true)
    (hk : strIsEmpty k = false)
    (hget : mapGet (st.usingMessages.getD []) k = some v)
    (hv : strIsEmpty v = false) :
    t k st = .ok v := by
  simp [t, hinit, hk, hget, falsyStr, hv]

/-- C2 witness. -/
theorem t_active_hit_witness :
    (init c2Options c2Dir initialState).st.initialized = true ∧
      strIsEmpty "b" = false ∧
      mapGet (((init c2Options c2Dir initialState).st).usingMessages.getD []) "b"
        = some "B" ∧
      strIsEmpty "B" = false ∧
      t "b" (init c2Options c2Dir initialState).st = .ok "B" :=
  ⟨by decide, by decide, by decide, by decide,
    t_active_hit _ "b" "B" (by decide) (by decide) (by decide) (by decide)⟩

/-! ## C4: fallback lookup -/

/-- C4 counterexample: a reachable initialized catalog (current `fr`,
fallback `en`) where `"a"` is absent from the active mapping and the
fallback stores `"a" ↦ ""`; `translate "a"` returns the key `"a"`
instead of the fallback's stored `""`. -/
theorem c4_counterexample :
    (init c4Options c4Dir initialState).res = .ok () ∧
      (init c4Options c4Dir initialState).st.usingLanguage = "fr" ∧
      fallbackLngOf (init c4Options c4Dir initialState).st = some "en" ∧
      mapGet ((init c4Options c4Dir initialState).st.usingMessages.getD []) "a"
        = none ∧
      mapGet ((init c4Options c4Dir initialState).st.fallBackMessages.getD []) "a"
        = some "" ∧
      t "a" (init c4Options c4Dir initialState).st = .ok "a" ∧
      t "a" (init c4Options c4Dir initialState).st ≠ .ok "" := by
  exact ⟨by decide, by decide, by decide, by decide, by decide, by decide, by decide⟩

/-- C4 (amended): for an initialized catalog whose current language
differs from the fallback language, a non-empty key absent from the
active mapping whose fallback value is non-empty translates to the
fallback's value. -/
theorem t_fallback_law (st : I18nState) (k v fb : String)
    (hinit : st.initialized = true)
    (hk : strIsEmpty k = false)
    (hmiss : mapGet (st.usingMessages.getD []) k = none)
    (hfb : fallbackLngOf st = some fb)
    (hne : st.usingLanguage ≠ fb)
    (hget : mapGet (st.fallBackMessages.getD []) k = some v)
    (hv : strIsEmpty v = false) :
    t k st = .ok v := by
  simp [t, hinit, hk, hmiss, falsyStr, usingNeFallback, langNeFallback, hfb, hne,
    hget, hv]

/-- C4 witness: in the C4 scenario, `"b2"` is served from the fallback. -/
theorem t_fallback_law_witness :
    (init c4Options c4Dir initialState).st.initialized = true ∧
      strIsEmpty "b2" = false ∧
      mapGet (((init c4Options c4Dir initialState).st).usingMessages.getD []) "b2"
        = none ∧
      fallbackLngOf (init c4Options c4Dir initialState).st = some "en" ∧
      (init c4Options c4Dir initialState).st.usingLanguage ≠ "en" ∧
      mapGet (((init c4Options c4Dir initialState).st).fallBackMessages.getD [])
        "b2" = some "B2" ∧
      strIsEmpty "B2" = false ∧
      t "b2" (init c4Options c4Dir initialState).st = .ok "B2" :=
  ⟨by decide, by decide, by decide, by decide, by decide, by decide, by decide,
    t_fallback_law _ "b2" "B2" "en" (by decide) (by decide) (by decide) (by decide)
      (by decide) (by decide) (by decide)⟩

/-! ## C10: non-string leaves -/

/-- C10: number and boolean leaves are recursed into via
`Object.keys`, have no own keys, and so contribute no entries to the
flattened map; a `null` value makes `objectToMap` (and hence `init`,
when such a file is loaded) throw the built-in `TypeError`, which is
neither an `I18nError` (the spec's `CatalogError`) nor an
`InvalidParameterError`. -/
theorem non_string_leaves :
    (∀ (key : String) (n : Int) (rest : List (String × Json))
        (rk : Option String) (map : List (String × String)),
        objFields ((key, Json.num n) :: rest) rk map = objFields rest rk map) ∧
      (∀ (key : String) (b : Bool) (rest : List (String × Json))
        (rk : Option String) (map : List (String × String)),
        objFields ((key, Json.bool b) :: rest) rk map = objFields rest rk map) ∧
      (∀ rk, objectToMap Json.null rk
        = .error (.typeError "Cannot convert undefined or null to object")) ∧
      (init (some ⟨some "en", some "en", "/n"⟩)
          (.ok [("messages.en.json", .parsed (.obj [("a", .null)]))])
          initialState).res
        = .error (.typeError "Cannot convert undefined or null to object") ∧
      (∀ msg msg2 cls, JsError.typeError msg ≠ .i18nError msg2 cls) ∧
      (∀ msg msg3, JsError.typeError msg ≠ .invalidParameterError msg3) := by
  refine ⟨fun key n rest rk map => ?_, fun key b rest rk map => ?_,
    fun rk => rfl, by decide, fun msg msg2 cls => by simp, fun msg msg3 => by simp⟩
  · simp [objFields, objectToMap]
  · simp [objFields, objectToMap]



theorem mapGet_cons {α : Type} (p : String × α) (m : List (String × α)) (l : String) :
    mapGet (p :: m) l = if p.1 = l then some p.2 else mapGet m l := by
  by_cases h : p.1 = l <;> simp [mapGet, List.find?, h]

theorem mapGet_replace_self {α : Type} (m : List (String × α)) (k : String) (v : α)
    (h : m.any (fun q => q.1 = k) = true) :
    mapGet (m.map (fun q => if q.1 = k then (k, v) else q)) k = some v := by
  induction m with
  | nil => cases h
  | cons p m ih =>
    by_cases hpk : p.1 = k
    · simp [mapGet_cons, hpk]
    · simp only [List.map_cons, if_neg hpk, mapGet_cons]
      apply ih
      simpa [hpk] using h

theorem mapGet_replace_ne {α : Type} (m : List (String × α)) (k l : String) (v : α)
    (hne : l ≠ k) :
    mapGet (m.map (fun q => if q.1 = k then (k, v) else q)) l = mapGet m l := by
  induction m with
  | nil => rfl
  | cons p m ih =>
    by_cases hpk : p.1 = k
    · simp only [List.map_cons, if_pos hpk, mapGet_cons]
      rw [if_neg (fun hh => hne hh.symm), if_neg (hpk ▸ (fun hh => hne hh.symm)), ih]
    · simp only [List.map_cons, if_neg hpk, mapGet_cons, ih]

theorem mapGet_mapSet {α : Type} (m : List (String × α)) (k l : String) (v : α) :
    mapGet (mapSet m k v) l = if l = k then some v else mapGet m l := by
  by_cases hany : m.any (fun q => q.1 = k)
  · simp only [mapSet, hany, if_true]
    by_cases hlk : l = k
    · subst hlk
      rw [if_pos rfl, mapGet_replace_self m l v hany]
    · rw [if_neg hlk, mapGet_replace_ne m k l v hlk]
  · simp only [mapSet, hany, Bool.false_eq_true, if_false]
    have hany2 : m.any (fun q => q.1 = k) = false := by
      revert hany
      cases m.any (fun q => q.1 = k) <;> simp
    have hnone : m.find? (fun q => q.1 = k) = none := by
      rw [List.find?_eq_none]
      intro x hx
      have hall := List.any_eq_false.mp hany2
      simpa using hall x hx
    by_cases hlk : l = k
    · subst hlk
      rw [if_pos rfl]
      unfold mapGet
      rw [List.find?_append, hnone]
      simp [List.find?]
    · rw [if_neg hlk]
      unfold mapGet
      rw [List.find?_append]
      have h2 : List.find? (fun q => q.1 = l) [(k, v)] = none := by
        have hkl : k ≠ l := fun hh => hlk hh.symm
        simp [List.find?, hkl]
      rw [h2]
      simp

theorem commitFile_messagesInv (opts : I18nInitOptions) (langId : String)
    (messages : List (String × String)) (st : I18nState) (fb : String)
    (hfb : opts.fallbackLng = some fb)
    (hinv : ∀ l ∈ st.languagesLoaded, l ≠ fb →
      (mapGet st.messagesLoaded l).isSome = true) :
    ∀ l ∈ (commitFile opts langId messages st).languagesLoaded, l ≠ fb →
      (mapGet (commitFile opts langId messages st).messagesLoaded l).isSome = true := by
  intro l hl hlfb
  have hl2 : l ∈ st.languagesLoaded ++ [langId] := hl
  show (mapGet (if langNeFallback langId opts.fallbackLng then
      mapSet st.messagesLoaded langId messages else st.messagesLoaded) l).isSome = true
  by_cases hne : langNeFallback langId opts.fallbackLng
  · rw [if_pos hne, mapGet_mapSet]
    rcases List.mem_append.mp hl2 with h | h
    · by_cases hlid : l = langId
      · rw [if_pos hlid]; rfl
      · rw [if_neg hlid]; exact hinv l h hlfb
    · rw [if_pos (by simpa using h)]; rfl
  · rw [if_neg hne]
    have hlangfb : langId = fb := by
      simp only [langNeFallback, hfb] at hne
      simpa using hne
    rcases List.mem_append.mp hl2 with h | h
    · exact hinv l h hlfb
    · have hli : l = langId := by simpa using h
      exact absurd (hli.trans hlangfb) hlfb

theorem commitFile_usingInv (opts : I18nInitOptions) (langId : String)
    (messages : List (String × String)) (st : I18nState)
    (hinv : st.usingMessages.isSome = true → st.usingLanguage ∈ st.languagesLoaded) :
    (commitFile opts langId messages st).usingMessages.isSome = true →
      (commitFile opts langId messages st).usingLanguage
        ∈ (commitFile opts langId messages st).languagesLoaded := by
  intro hsome
  show st.usingLanguage ∈ st.languagesLoaded ++ [langId]
  have hsome2 : (if langId = st.usingLanguage then some messages
      else st.usingMessages).isSome = true := hsome
  by_cases heq : langId = st.usingLanguage
  · exact List.mem_append.mpr (Or.inr (by simp [heq]))
  · rw [if_neg heq] at hsome2
    exact List.mem_append.mpr (Or.inl (hinv hsome2))

theorem initLoop_messagesInv (opts : I18nInitOptions)
    (files : List (String × FileContent)) (fb : String)
    (hfb : opts.fallbackLng = some fb) :
    ∀ (names : List String) (st : I18nState),
      (∀ l ∈ st.languagesLoaded, l ≠ fb →
        (mapGet st.messagesLoaded l).isSome = true) →
      ∀ l ∈ ((initLoop opts files names st).1).languagesLoaded, l ≠ fb →
        (mapGet ((initLoop opts files names st).1).messagesLoaded l).isSome = true := by
  intro names
  induction names with
  | nil => intro st hinv; exact hinv
  | cons fileName rest ih =>
    intro st hinv
    simp only [initLoop]
    split
    · split
      · exact ih st hinv
      · split
        · exact hinv
        · exact hinv
        · split
          · exact hinv
          · exact ih _ (commitFile_messagesInv opts _ _ st fb hfb hinv)
    · exact ih st hinv

theorem initLoop_usingInv (opts : I18nInitOptions)
    (files : List (String × FileContent)) :
    ∀ (names : List String) (st : I18nState),
      (st.usingMessages.isSome = true → st.usingLanguage ∈ st.languagesLoaded) →
      ((initLoop opts files names st).1).usingMessages.isSome = true →
        ((initLoop opts files names st).1).usingLanguage
          ∈ ((initLoop opts files names st).1).languagesLoaded := by
  intro names
  induction names with
  | nil => intro st hinv; exact hinv
  | cons fileName rest ih =>
    intro st hinv
    simp only [initLoop]
    split
    · split
      · exact ih st hinv
      · split
        · exact hinv
        · exact hinv
        · split
          · exact hinv
          · exact ih _ (commitFile_usingInv opts _ _ st hinv)
    · exact ih st hinv



theorem changeLanguage_fields (l : String) (st : I18nState) :
    ((changeLanguage l st).2).initialized = st.initialized ∧
      ((changeLanguage l st).2).options = st.options ∧
      ((changeLanguage l st).2).languagesLoaded = st.languagesLoaded ∧
      ((changeLanguage l st).2).messagesLoaded = st.messagesLoaded ∧
      ((changeLanguage l st).2).fallBackMessages = st.fallBackMessages := by
  simp only [changeLanguage]
  repeat' split
  all_goals exact ⟨rfl, rfl, rfl, rfl, rfl⟩

theorem changeLanguage_usingLanguage (l : String) (st : I18nState) :
    ((changeLanguage l st).2).usingLanguage = st.usingLanguage ∨
      (((changeLanguage l st).2).usingLanguage = l ∧ l ∈ st.languagesLoaded) := by
  simp only [changeLanguage]
  split
  · exact Or.inl rfl
  · split
    · exact Or.inl rfl
    · split
      · exact Or.inl rfl
      · rename_i hcont
        have hc2 : st.languagesLoaded.contains l = true := by
          revert hcont
          cases st.languagesLoaded.contains l <;> simp
        have hmem : l ∈ st.languagesLoaded := by
          simpa [List.contains] using hc2
        split
        · exact Or.inl rfl
        · split
          · split
            · exact Or.inr ⟨rfl, hmem⟩
            · exact Or.inr ⟨rfl, hmem⟩
          · exact Or.inr ⟨rfl, hmem⟩

theorem changeLanguage_cleanInv (l : String) (st : I18nState) (h : CleanInv st) :
    CleanInv ((changeLanguage l st).2) := by
  obtain ⟨h1, h2, h3⟩ := h
  obtain ⟨f1, f2, f3, f4, f5⟩ := changeLanguage_fields l st
  have hfbeq : fallbackLngOf ((changeLanguage l st).2) = fallbackLngOf st := by
    unfold fallbackLngOf
    rw [f2]
  refine ⟨f1.trans h1, ?_, ?_⟩
  · rcases changeLanguage_usingLanguage l st with hu | ⟨hu, hmem⟩
    · rw [hu, f3]; exact h2
    · rw [hu, f3]; exact hmem
  · intro fb hfb l2 hl2 hne
    rw [f4]
    rw [f3] at hl2
    exact h3 fb (hfbeq ▸ hfb) l2 hl2 hne

theorem postStep_cleanInv (st : I18nState) (op : PostOp) (h : CleanInv st) :
    CleanInv (postStep st op) := by
  cases op with
  | translateOp _ => exact h
  | changeOp l => exact changeLanguage_cleanInv l st h

theorem applyPost_cleanInv (st : I18nState) (ops : List PostOp) (h : CleanInv st) :
    CleanInv (applyPost st ops) := by
  induction ops generalizing st with
  | nil => exact h
  | cons op rest ih => exact ih _ (postStep_cleanInv st op h)

theorem validate_fallback_isSome (o : Option I18nInitOptions)
    (opts : I18nInitOptions) (co : Option I18nInitOptions)
    (h : validateInitOptions o = (.ok opts, co)) :
    ∃ fb, opts.fallbackLng = some fb := by
  cases o with
  | none => simp [validateInitOptions] at h
  | some o0 =>
    simp only [validateInitOptions] at h
    repeat' split at h
    any_goals simp at h
    all_goals obtain ⟨hl, hr⟩ := h
    all_goals subst hl
    all_goals first
      | exact ⟨"en", rfl⟩
      | (cases hval : o0.fallbackLng with
         | none => simp_all [isEmptyOpt]
         | some s => exact ⟨s, rfl⟩)



theorem init_clean (o : Option I18nInitOptions) (dir : DirListing)
    (hok : (init o dir initialState).res = .ok ()) :
    CleanInv (init o dir initialState).st := by
  revert hok
  have hflag : initialState.initialized = false := rfl
  simp only [init, hflag, Bool.false_eq_true, if_false]
  split
  · exact fun h => nomatch h
  · rename_i hpair opts0 co hval
    split
    · exact fun h => nomatch h
    · rename_i files
      split
      · exact fun h => nomatch h
      · rename_i stL u hloop
        split
        · exact fun h => nomatch h
        · split
          · exact fun h => nomatch h
          · rename_i husing hfall
            intro _
            obtain ⟨fb, hfb⟩ := validate_fallback_isSome o opts0 co hval
            have hsome : stL.usingMessages.isSome = true := by
              revert husing
              cases stL.usingMessages <;> simp
            have husinginv := initLoop_usingInv
              { opts0 with loadPath := pathNormalize opts0.loadPath } files
              (files.map (fun p => p.1))
              (preLoopState { opts0 with loadPath := pathNormalize opts0.loadPath }
                initialState)
              (by
                rw [(preLoopState_fields _ _).2.2.2.2.2]
                intro hs
                exact absurd hs (by simp [initialState]))
            rw [hloop] at husinginv
            have hmsginv := initLoop_messagesInv
              { opts0 with loadPath := pathNormalize opts0.loadPath } files fb hfb
              (files.map (fun p => p.1))
              (preLoopState { opts0 with loadPath := pathNormalize opts0.loadPath }
                initialState)
              (by
                rw [(preLoopState_fields _ _).2.2.1]
                intro l hl
                exact absurd hl (by simp [initialState]))
            rw [hloop] at hmsginv
            refine ⟨rfl, husinginv hsome, ?_⟩
            intro fb2 hfb2 l hl hne
            have hopts : stL.options
                = some { opts0 with loadPath := pathNormalize opts0.loadPath } := by
              have := (initLoop_out _ _ _ _ _ _ hloop).2.1
              rw [this, (preLoopState_fields _ _).2.1]
            have : fb2 = fb := by
              simp only [fallbackLngOf, hopts] at hfb2
              rw [hfb] at hfb2
              exact (Option.some.injEq _ _ ▸ hfb2).symm
            subst this
            exact hmsginv l hl hne


/-- C6 counterexample: a failed first `init` leaves `"en"` in
`languagesLoaded` with its messages stored as that call's fallback
(so not in `messagesLoaded`); after a second, successful `init` with
fallback `"pt"`, `changeLanguage "en"` passes the `languagesLoaded`
check, finds no mapping, and fails with the defensive
translations-not-found `I18nError` — the defensive branch is
reachable. -/
theorem c6_counterexample :
    (init c6OptionsFirst c6DirFirst initialState).res
        = .error (.i18nError
          "The translation file to the current configured language was not found."
          none) ∧
      (run [.initOp c6OptionsFirst c6DirFirst,
            .initOp c6OptionsSecond c6DirSecond]).initialized = true ∧
      "en" ∈ (run [.initOp c6OptionsFirst c6DirFirst,
            .initOp c6OptionsSecond c6DirSecond]).languagesLoaded ∧
      fallbackLngOf (run [.initOp c6OptionsFirst c6DirFirst,
            .initOp c6OptionsSecond c6DirSecond]) = some "pt" ∧
      mapGet (run [.initOp c6OptionsFirst c6DirFirst,
            .initOp c6OptionsSecond c6DirSecond]).messagesLoaded "en" = none ∧
      (changeLanguage "en" (run [.initOp c6OptionsFirst c6DirFirst,
            .initOp c6OptionsSecond c6DirSecond])).1
        = .error (.i18nError
            "The translations for the language en were not found." none) := by
  exact ⟨by decide, by decide, by decide, by decide, by decide, by decide⟩

/-- C6 (amended): in every state reached by a successful `init` on a
fresh catalog followed by any sequence of `t` / `changeLanguage`
calls, every member of `languagesLoaded` other than the configured
fallback language has a mapping in `messagesLoaded`, and
`changeLanguage` on it never fails with the defensive
translations-not-found `I18nError`. -/
theorem changeLanguage_defensive_unreachable (o : Option I18nInitOptions)
    (dir : DirListing) (ops : List PostOp) (st : I18nState)
    (hok : (init o dir initialState).res = .ok ())
    (hst : st = applyPost (init o dir initialState).st ops)
    (l : String) (hl : l ∈ st.languagesLoaded)
    (fb : String) (hfb : fallbackLngOf st = some fb) (hne : l ≠ fb) :
    (mapGet st.messagesLoaded l).isSome = true ∧
      (changeLanguage l st).1
        ≠ .error (.i18nError ("The translations for the language " ++ l
            ++ " were not found.") none) := by
  have hclean : CleanInv st := hst ▸ applyPost_cleanInv _ ops (init_clean o dir hok)
  obtain ⟨h1, h2, h3⟩ := hclean
  have hget := h3 fb hfb l hl hne
  refine ⟨hget, ?_⟩
  simp only [changeLanguage, h1, Bool.not_true, Bool.false_eq_true, if_false]
  by_cases hemp : strIsEmpty l
  · rw [if_pos hemp]
    simp
  · rw [if_neg hemp]
    have hcont : st.languagesLoaded.contains l = true := by
      simpa [List.contains] using List.elem_iff.mpr hl
    rw [hcont]
    simp only [Bool.not_true, Bool.false_eq_true, if_false]
    by_cases hcur : st.usingLanguage = l
    · rw [if_pos hcur]
      simp
    · rw [if_neg hcur]
      obtain ⟨msgs, hmsgs⟩ := Option.isSome_iff_exists.mp hget
      have hmsgs2 : mapGet ({ st with usingLanguage := l } : I18nState).messagesLoaded l
          = some msgs := hmsgs
      have hfb2 : fallbackLngOf ({ st with usingLanguage := l } : I18nState)
          = some fb := hfb
      simp [hfb2, langNeFallback, hne, hmsgs2]
      split <;> simp

/-- C6 witness: the C2 scenario state, switching to the loaded
non-fallback language `"fr"`. -/
theorem changeLanguage_defensive_unreachable_witness :
    (init c2Options c2Dir initialState).res = .ok () ∧
      applyPost (init c2Options c2Dir initialState).st []
        = applyPost (init c2Options c2Dir initialState).st [] ∧
      "fr" ∈ (applyPost (init c2Options c2Dir initialState).st []).languagesLoaded ∧
      fallbackLngOf (applyPost (init c2Options c2Dir initialState).st [])
        = some "en" ∧
      "fr" ≠ "en" ∧
      ((mapGet (applyPost (init c2Options c2Dir initialState).st []).messagesLoaded
          "fr").isSome = true ∧
        (changeLanguage "fr" (applyPost (init c2Options c2Dir initialState).st [])).1
          ≠ .error (.i18nError ("The translations for the language " ++ "fr"
              ++ " were not found.") none)) :=
  ⟨by decide, rfl, by decide, by decide, by decide,
    changeLanguage_defensive_unreachable c2Options c2Dir [] _ (by decide) rfl
      "fr" (by decide) "en" (by decide) (by decide)⟩

/-- C7 counterexample: a failed first `init` (language `fr`, only a
`fr` file, missing fallback) leaves `_usingMessages` assigned; a
second `init` asking for language `"de"` over a directory with only an
`en` file then succeeds — with `currentLanguage = "de"` not a member
of `loadedLanguages = ["fr", "en"]`. -/
theorem c7_counterexample :
    (init c7OptionsFirst c7DirFirst initialState).res
        = .error (.i18nError
          "The translation file to the fallback language was not found." none) ∧
      (init c7OptionsSecond c7DirSecond
          (init c7OptionsFirst c7DirFirst initialState).st).res = .ok () ∧
      (run [.initOp c7OptionsFirst c7DirFirst,
            .initOp c7OptionsSecond c7DirSecond]).initialized = true ∧
      (run [.initOp c7OptionsFirst c7DirFirst,
            .initOp c7OptionsSecond c7DirSecond]).usingLanguage = "de" ∧
      (run [.initOp c7OptionsFirst c7DirFirst,
            .initOp c7OptionsSecond c7DirSecond]).languagesLoaded = ["fr", "en"] ∧
      ¬ (run [.initOp c7OptionsFirst c7DirFirst,
            .initOp c7OptionsSecond c7DirSecond]).usingLanguage
          ∈ (run [.initOp c7OptionsFirst c7DirFirst,
            .initOp c7OptionsSecond c7DirSecond]).languagesLoaded := by
  exact ⟨by decide, by decide, by decide, by decide, by decide, by decide⟩

/-- C7 (amended): after a successful `init` on a fresh catalog and any
sequence of `t` / `changeLanguage` calls (succeeding or failing),
`currentLanguage` is a member of `loadedLanguages`. -/
theorem currentLanguage_member (o : Option I18nInitOptions) (dir : DirListing)
    (ops : List PostOp) (st : I18nState)
    (hok : (init o dir initialState).res = .ok ())
    (hst : st = applyPost (init o dir initialState).st ops) :
    st.usingLanguage ∈ st.languagesLoaded :=
  (hst ▸ applyPost_cleanInv _ ops (init_clean o dir hok)).2.1

/-- C7 witness: the C5 scenario state after a no-op suffix. -/
theorem currentLanguage_member_witness :
    (init c5Options c5Dir initialState).res = .ok () ∧
      applyPost (init c5Options c5Dir initialState).st [.translateOp "a"]
        = applyPost (init c5Options c5Dir initialState).st [.translateOp "a"] ∧
      (applyPost (init c5Options c5Dir initialState).st
          [.translateOp "a"]).usingLanguage
        ∈ (applyPost (init c5Options c5Dir initialState).st
          [.translateOp "a"]).languagesLoaded :=
  ⟨by decide, rfl,
    currentLanguage_member c5Options c5Dir [.translateOp "a"] _ (by decide) rfl⟩



theorem splitCharAux_no_sep (sep : Char) (a : List Char) (h : sep ∉ a) :
    splitCharAux sep a = [a] := by
  induction a with
  | nil => rfl
  | cons c rest ih =>
    have hc : c ≠ sep := fun hh => h (hh ▸ List.mem_cons_self c rest)
    have hrest : sep ∉ rest := fun hh => h (List.mem_cons_of_mem c hh)
    simp only [splitCharAux, if_neg hc, ih hrest]

theorem splitCharAux_append (sep : Char) (a b : List Char) (h : sep ∉ a) :
    splitCharAux sep (a ++ sep :: b) = a :: splitCharAux sep b := by
  induction a with
  | nil => simp [splitCharAux]
  | cons c rest ih =>
    have hc : c ≠ sep := fun hh => h (hh ▸ List.mem_cons_self c rest)
    have hrest : sep ∉ rest := fun hh => h (List.mem_cons_of_mem c hh)
    simp only [List.cons_append, splitCharAux, if_neg hc, List.append_eq]
    rw [ih hrest]

theorem dotFree_not_mem (s : String) (h : dotFree s = true) : '.' ∉ s.data := by
  intro hmem
  simp [dotFree] at h
  exact h hmem

theorem splitDots_joinDots (p : List String) (hne : p ≠ [])
    (hdf : ∀ s ∈ p, dotFree s = true) :
    splitDots (joinChar "." p) = p := by
  induction p with
  | nil => exact absurd rfl hne
  | cons x rest ih =>
    cases rest with
    | nil =>
      show (splitCharAux '.' x.data).map String.mk = [x]
      rw [splitCharAux_no_sep '.' x.data
        (dotFree_not_mem x (hdf x (List.mem_cons_self x [])))]
      rfl
    | cons y rest2 =>
      have hjoin : joinChar "." (x :: y :: rest2) = x ++ "." ++ joinChar "." (y :: rest2) :=
        rfl
      show (splitCharAux '.' (joinChar "." (x :: y :: rest2)).data).map String.mk
        = x :: y :: rest2
      rw [hjoin, String.data_append, String.data_append]
      have hdot : ("." : String).data = ['.'] := rfl
      rw [hdot]
      rw [List.append_assoc]
      have := splitCharAux_append '.' x.data ((joinChar "." (y :: rest2)).data)
        (dotFree_not_mem x (hdf x (List.mem_cons_self x _)))
      simp only [List.singleton_append] at this ⊢
      rw [this]
      have ihr := ih (by simp) (fun s hs => hdf s (List.mem_cons_of_mem x hs))
      simp only [List.map_cons]
      rw [show String.mk x.data = x from rfl]
      exact congrArg (x :: ·) ihr

theorem composeKey_inj (rk : Option String) (a b : String)
    (h : composeKey rk a = composeKey rk b) : a = b := by
  cases rk with
  | none => exact h
  | some r =>
    by_cases hr : strIsEmpty r
    · simpa [composeKey, hr] using h
    · have hd := congrArg String.data h
      simp only [composeKey, hr, Bool.false_eq_true, if_false,
        String.data_append] at hd
      exact String.ext (List.append_cancel_left hd)



theorem flatPaths_ne_nil_path (fields : List (String × Json)) :
    ∀ pv ∈ flatPaths fields, pv.1 ≠ [] := by
  induction fields using flatPaths.induct with
  | case1 => intro pv hpv; simp [flatPaths] at hpv
  | case2 k s rest ih =>
    intro pv hpv
    simp only [flatPaths] at hpv
    rcases List.mem_cons.mp hpv with h | h
    · rw [h]; simp
    · exact ih pv h
  | case3 k sub rest ihsub ihrest =>
    intro pv hpv
    simp only [flatPaths] at hpv
    rcases List.mem_append.mp hpv with h | h
    · obtain ⟨q, hq, hqe⟩ := List.mem_map.mp h
      rw [← hqe]; simp
    · exact ihrest pv h
  | case4 head rest h1 h2 ih =>
    intro pv hpv
    have : flatPaths (head :: rest) = flatPaths rest := by
      obtain ⟨k, v⟩ := head
      cases v with
      | str s => exact absurd rfl (h1 k s)
      | obj sub => exact absurd rfl (h2 k sub)
      | num n => simp [flatPaths]
      | bool b => simp [flatPaths]
      | null => simp [flatPaths]
    rw [this] at hpv
    exact ih pv hpv

theorem flatPaths_head_key (fields : List (String × Json)) :
    ∀ pv ∈ flatPaths fields, ∃ k t, pv.1 = k :: t ∧ k ∈ fields.map Prod.fst := by
  induction fields using flatPaths.induct with
  | case1 => intro pv hpv; simp [flatPaths] at hpv
  | case2 k s rest ih =>
    intro pv hpv
    simp only [flatPaths] at hpv
    rcases List.mem_cons.mp hpv with h | h
    · exact ⟨k, [], by rw [h], by simp⟩
    · obtain ⟨k2, t2, he, hm⟩ := ih pv h
      exact ⟨k2, t2, he, by simp [hm]⟩
  | case3 k sub rest ihsub ihrest =>
    intro pv hpv
    simp only [flatPaths] at hpv
    rcases List.mem_append.mp hpv with h | h
    · obtain ⟨q, hq, hqe⟩ := List.mem_map.mp h
      exact ⟨k, q.1, by rw [← hqe], by simp⟩
    · obtain ⟨k2, t2, he, hm⟩ := ihrest pv h
      exact ⟨k2, t2, he, by simp [hm]⟩
  | case4 head rest h1 h2 ih =>
    intro pv hpv
    have heq : flatPaths (head :: rest) = flatPaths rest := by
      obtain ⟨k, v⟩ := head
      cases v with
      | str s => exact absurd rfl (h1 k s)
      | obj sub => exact absurd rfl (h2 k sub)
      | num n => simp [flatPaths]
      | bool b => simp [flatPaths]
      | null => simp [flatPaths]
    rw [heq] at hpv
    obtain ⟨k2, t2, he, hm⟩ := ih pv hpv
    exact ⟨k2, t2, he, by simp [hm]⟩

theorem wfFields_cons (k : String) (v : Json) (rest : List (String × Json))
    (h : wfFields ((k, v) :: rest) = true) :
    dotFree k = true ∧ objKeyOk k v = true ∧ wfValue v = true ∧
      (∀ p ∈ rest, p.1 ≠ k) ∧ wfFields rest = true := by
  simp only [wfFields, Bool.and_eq_true, List.all_eq_true] at h
  refine ⟨h.1.1.1.1, h.1.1.1.2, h.1.1.2, fun p hp => ?_, h.2⟩
  have := h.1.2 p hp
  simpa using this

theorem flatPaths_dotFree (fields : List (String × Json))
    (hwf : wfFields fields = true) :
    ∀ pv ∈ flatPaths fields, ∀ s ∈ pv.1, dotFree s = true := by
  induction fields using flatPaths.induct with
  | case1 => intro pv hpv; simp [flatPaths] at hpv
  | case2 k s rest ih =>
    intro pv hpv seg hseg
    simp only [flatPaths] at hpv
    obtain ⟨hdf, _, _, _, hrest⟩ := wfFields_cons _ _ _ hwf
    rcases List.mem_cons.mp hpv with h | h
    · rw [h] at hseg
      have : seg = k := by simpa using hseg
      rw [this]; exact hdf
    · exact ih hrest pv h seg hseg
  | case3 k sub rest ihsub ihrest =>
    intro pv hpv seg hseg
    simp only [flatPaths] at hpv
    obtain ⟨hdf, _, hv, _, hrest⟩ := wfFields_cons _ _ _ hwf
    have hsub : wfFields sub = true := by
      simp only [wfValue, Bool.and_eq_true] at hv
      exact hv.2
    rcases List.mem_append.mp hpv with h | h
    · obtain ⟨q, hq, hqe⟩ := List.mem_map.mp h
      rw [← hqe] at hseg
      rcases List.mem_cons.mp hseg with h2 | h2
      · rw [h2]; exact hdf
      · exact ihsub hsub q hq seg h2
    · exact ihrest hrest pv h seg hseg
  | case4 head rest h1 h2 ih =>
    intro pv hpv
    obtain ⟨k, v⟩ := head
    obtain ⟨_, _, hv, _, hrest⟩ := wfFields_cons _ _ _ hwf
    have heq : flatPaths ((k, v) :: rest) = flatPaths rest := by
      cases v with
      | str s => exact absurd rfl (h1 k s)
      | obj sub => exact absurd rfl (h2 k sub)
      | num n => simp [flatPaths]
      | bool b => simp [flatPaths]
      | null => simp [flatPaths]
    rw [heq] at hpv
    exact ih hrest pv hpv



theorem flatPaths_nodup (fields : List (String × Json))
    (hwf : wfFields fields = true) :
    ((flatPaths fields).map Prod.fst).Nodup := by
  induction fields using flatPaths.induct with
  | case1 => simp [flatPaths]
  | case2 k s rest ih =>
    obtain ⟨_, _, _, hne, hrest⟩ := wfFields_cons _ _ _ hwf
    simp only [flatPaths, List.map_cons, List.nodup_cons]
    refine ⟨?_, ih hrest⟩
    intro hmem
    obtain ⟨pv, hpv, hpve⟩ := List.mem_map.mp hmem
    obtain ⟨k2, t2, he, hm⟩ := flatPaths_head_key rest pv hpv
    rw [he] at hpve
    have hkk : k2 = k ∧ t2 = [] := by
      have := hpve.symm
      simpa using this.symm
    obtain ⟨q, hq, hqe⟩ := List.mem_map.mp hm
    exact hne q hq (hqe.trans hkk.1)
  | case3 k sub rest ihsub ihrest =>
    obtain ⟨_, _, hv, hne, hrest⟩ := wfFields_cons _ _ _ hwf
    have hsub : wfFields sub = true := by
      simp only [wfValue, Bool.and_eq_true] at hv
      exact hv.2
    simp only [flatPaths, List.map_append, List.nodup_append]
    refine ⟨?_, ihrest hrest, ?_⟩
    · have hmm : List.map Prod.fst ((flatPaths sub).map
          (fun p => ((k :: p.1, p.2) : List String × String)))
          = List.map (fun l2 => k :: l2) ((flatPaths sub).map Prod.fst) := by
        rw [List.map_map, List.map_map]
        rfl
      rw [hmm]
      exact List.Nodup.map_on (fun x _ y _ hxy => by simpa using hxy) (ihsub hsub)
    · intro p hp hq
      obtain ⟨pv, hpv, hpve⟩ := List.mem_map.mp hp
      obtain ⟨q2, hq2, hq2e⟩ := List.mem_map.mp hq
      obtain ⟨k2, t2, he, hm⟩ := flatPaths_head_key rest q2 hq2
      obtain ⟨q3, hq3, hq3e⟩ := List.mem_map.mp hm
      obtain ⟨pv2, hpv2, hpv2e⟩ := List.mem_map.mp hpv
      have h1 : p = k :: pv2.1 := by rw [← hpve, ← hpv2e]
      have h2 : p = k2 :: t2 := by rw [← hq2e, he]
      have h3 : k :: pv2.1 = k2 :: t2 := h1.symm.trans h2
      have hk : k2 = k := by
        injection h3 with hh _
        exact hh.symm
      exact hne q3 hq3 (hq3e.trans hk)
  | case4 head rest h1 h2 ih =>
    obtain ⟨k, v⟩ := head
    obtain ⟨_, _, hv, _, hrest⟩ := wfFields_cons _ _ _ hwf
    have heq : flatPaths ((k, v) :: rest) = flatPaths rest := by
      cases v with
      | str s => exact absurd rfl (h1 k s)
      | obj sub => exact absurd rfl (h2 k sub)
      | num n => simp [flatPaths]
      | bool b => simp [flatPaths]
      | null => simp [flatPaths]
    rw [heq]
    exact ih hrest



theorem composeKey_cons (rk : Option String) (k : String) (p : List String)
    (hne : p ≠ []) (hk : strIsEmpty k = false) :
    composeKey rk (composeKey (some k) (joinChar "." p))
      = composeKey rk (joinChar "." (k :: p)) := by
  cases p with
  | nil => exact absurd rfl hne
  | cons y rest =>
    show composeKey rk (if strIsEmpty k then joinChar "." (y :: rest)
      else k ++ "." ++ joinChar "." (y :: rest)) = _
    rw [if_neg (by simp [hk])]
    rfl

theorem flatF_eq (fields : List (String × Json)) (rk : Option String)
    (hwf : wfFields fields = true) :
    flatF fields rk = (flatPaths fields).map
      (fun pv => (composeKey rk (joinChar "." pv.1), pv.2)) := by
  induction fields, rk using flatF.induct with
  | case1 rk => simp [flatF, flatPaths]
  | case2 k s rest rk ih =>
    obtain ⟨_, _, _, _, hrest⟩ := wfFields_cons _ _ _ hwf
    simp only [flatF, flatPaths, List.map_cons]
    rw [ih hrest]
    rfl
  | case3 k sub rest rk ihsub ihrest =>
    obtain ⟨_, hko, hv, _, hrest⟩ := wfFields_cons _ _ _ hwf
    have hsub : wfFields sub = true := by
      simp only [wfValue, Bool.and_eq_true] at hv
      exact hv.2
    have hk : strIsEmpty k = false := by
      simpa [objKeyOk] using hko
    simp only [flatF, flatPaths, List.map_append]
    rw [ihsub hsub, ihrest hrest]
    congr 1
    rw [List.map_map, List.map_map]
    apply List.map_congr_left
    intro pv hpv
    have hne := flatPaths_ne_nil_path sub pv hpv
    show (composeKey rk (composeKey (some k) (joinChar "." pv.1)), pv.2) = _
    rw [composeKey_cons rk k pv.1 hne hk]
    rfl
  | case4 head rest rk h1 h2 ih =>
    obtain ⟨k, v⟩ := head
    obtain ⟨_, _, hv, _, hrest⟩ := wfFields_cons _ _ _ hwf
    have heqF : flatF ((k, v) :: rest) rk = flatF rest rk := by
      cases v with
      | str s => exact absurd rfl (h1 k s)
      | obj sub => exact absurd rfl (h2 k sub)
      | num n => simp [flatF]
      | bool b => simp [flatF]
      | null => simp [flatF]
    have heqP : flatPaths ((k, v) :: rest) = flatPaths rest := by
      cases v with
      | str s => exact absurd rfl (h1 k s)
      | obj sub => exact absurd rfl (h2 k sub)
      | num n => simp [flatPaths]
      | bool b => simp [flatPaths]
      | null => simp [flatPaths]
    rw [heqF, heqP]
    exact ih hrest

theorem flatF_keys_nodup (fields : List (String × Json)) (rk : Option String)
    (hwf : wfFields fields = true) :
    ((flatF fields rk).map Prod.fst).Nodup := by
  rw [flatF_eq fields rk hwf]
  have hmm : List.map Prod.fst ((flatPaths fields).map
      (fun pv => ((composeKey rk (joinChar "." pv.1), pv.2) : String × String)))
      = List.map (fun l2 => composeKey rk (joinChar "." l2))
          ((flatPaths fields).map Prod.fst) := by
    rw [List.map_map, List.map_map]
    rfl
  rw [hmm]
  apply List.Nodup.map_on ?_ (flatPaths_nodup fields hwf)
  intro x hx y hy hxy
  obtain ⟨px, hpx, hpxe⟩ := List.mem_map.mp hx
  obtain ⟨py, hpy, hpye⟩ := List.mem_map.mp hy
  have hjx := composeKey_inj rk _ _ hxy
  have hx2 : splitDots (joinChar "." x) = x := by
    apply splitDots_joinDots x (by rw [← hpxe]; exact flatPaths_ne_nil_path _ px hpx)
    intro s2 hs2
    apply flatPaths_dotFree fields hwf px hpx
    rw [hpxe]
    exact hs2
  have hy2 : splitDots (joinChar "." y) = y := by
    apply splitDots_joinDots y (by rw [← hpye]; exact flatPaths_ne_nil_path _ py hpy)
    intro s2 hs2
    apply flatPaths_dotFree fields hwf py hpy
    rw [hpye]
    exact hs2
  rw [← hx2, ← hy2, hjx]



theorem mapSet_append_fresh {α : Type} (m : List (String × α)) (k : String) (v : α)
    (h : ∀ q ∈ m, q.1 ≠ k) : mapSet m k v = m ++ [(k, v)] := by
  have hany : m.any (fun p => p.1 = k) = false := by
    rw [List.any_eq_false]
    intro x hx
    simpa using h x hx
  simp [mapSet, hany]

theorem foldl_mapSet_fresh (l acc : List (String × String)) (g : String → String)
    (hnodup : (l.map (fun p => g p.1)).Nodup)
    (hfresh : ∀ p ∈ l, ∀ q ∈ acc, g p.1 ≠ q.1) :
    l.foldl (fun m p => mapSet m (g p.1) p.2) acc
      = acc ++ l.map (fun p => (g p.1, p.2)) := by
  induction l generalizing acc with
  | nil => simp
  | cons p l ih =>
    simp only [List.foldl_cons, List.map_cons]
    rw [mapSet_append_fresh acc (g p.1) p.2
      (fun q hq hh => hfresh p (List.mem_cons_self p l) q hq hh.symm)]
    rw [ih (acc ++ [(g p.1, p.2)])]
    · rw [List.append_assoc]
      rfl
    · exact (List.nodup_cons.mp hnodup).2
    · intro p2 hp2 q hq
      rcases List.mem_append.mp hq with h2 | h2
      · exact hfresh p2 (List.mem_cons_of_mem p hp2) q h2
      · have : q = (g p.1, p.2) := by simpa using h2
        rw [this]
        intro hh
        exact (List.nodup_cons.mp hnodup).1
          (List.mem_map.mpr ⟨p2, hp2, by simpa using hh⟩)

theorem objFields_ok (fields : List (String × Json)) (rk : Option String) :
    ∀ acc : List (String × String),
      wfFields fields = true →
      (∀ e ∈ flatF fields rk, ∀ q ∈ acc, e.1 ≠ q.1) →
      objFields fields rk acc = .ok (acc ++ flatF fields rk) := by
  induction fields, rk using flatF.induct with
  | case1 rk => intro acc _ _; simp [objFields, flatF]
  | case2 k s rest rk ih =>
    intro acc hwf hfresh
    obtain ⟨_, _, _, _, hrest⟩ := wfFields_cons _ _ _ hwf
    simp only [objFields, flatF]
    rw [mapSet_append_fresh acc (composeKey rk k) s (fun q hq => by
      have := hfresh (composeKey rk k, s) (by simp [flatF]) q hq
      exact fun hh => this (hh.symm ▸ rfl))]
    rw [ih _ hrest (fun e he q hq => by
      rcases List.mem_append.mp hq with h2 | h2
      · exact hfresh e (by simp [flatF, he]) q h2
      · have hq2 : q = (composeKey rk k, s) := by simpa using h2
        rw [hq2]
        have hnodup := flatF_keys_nodup ((k, .str s) :: rest) rk hwf
        simp only [flatF, List.map_cons, List.nodup_cons] at hnodup
        intro hh
        exact hnodup.1 (List.mem_map.mpr ⟨e, he, hh⟩))]
    rw [List.append_assoc]
    rfl
  | case3 k sub rest rk ihsub ihrest =>
    intro acc hwf hfresh
    obtain ⟨_, _, hv, _, hrest⟩ := wfFields_cons _ _ _ hwf
    have hsub : wfFields sub = true := by
      simp only [wfValue, Bool.and_eq_true] at hv
      exact hv.2
    have hsubmap : objectToMap (.obj sub) (some k) = .ok (flatF sub (some k)) := by
      show objFields sub (some k) [] = _
      rw [ihsub [] hsub (fun e _ q hq => absurd hq (List.not_mem_nil q))]
      rfl
    simp only [objFields, flatF, hsubmap]
    have hnodupAll := flatF_keys_nodup ((k, .obj sub) :: rest) rk hwf
    simp only [flatF, List.map_append, List.nodup_append, List.map_map] at hnodupAll
    obtain ⟨hnodupL, hnodupR, hdisj⟩ := hnodupAll
    rw [foldl_mapSet_fresh (flatF sub (some k)) acc (composeKey rk)
      (by
        have h0 : (fun p => composeKey rk (p : String × String).1)
            = (Prod.fst ∘ fun p => ((composeKey rk p.1, p.2) : String × String)) := rfl
        rw [h0]
        exact hnodupL)
      (fun p hp q hq => by
        have := hfresh (composeKey rk p.1, p.2)
          (by
            simp only [flatF, List.mem_append]
            exact Or.inl (List.mem_map.mpr ⟨p, hp, rfl⟩)) q hq
        exact this)]
    rw [ihrest _ hrest (fun e he q hq => by
      rcases List.mem_append.mp hq with h2 | h2
      · exact hfresh e (by simp only [flatF, List.mem_append]; exact Or.inr he) q h2
      · obtain ⟨p2, hp2, hp2e⟩ := List.mem_map.mp h2
        intro hh
        apply hdisj (a := e.1)
        · rw [hh, ← hp2e]
          exact List.mem_map.mpr ⟨p2, hp2, rfl⟩
        · exact List.mem_map.mpr ⟨e, he, rfl⟩)]
    rw [List.append_assoc]
  | case4 head rest rk h1 h2 ih =>
    intro acc hwf hfresh
    obtain ⟨k, v⟩ := head
    obtain ⟨_, _, hv, _, hrest⟩ := wfFields_cons _ _ _ hwf
    cases v with
    | str s => exact absurd rfl (h1 k s)
    | obj sub => exact absurd rfl (h2 k sub)
    | num n => simp [wfValue] at hv
    | bool b => simp [wfValue] at hv
    | null => simp [wfValue] at hv



theorem mapGet_append_left_none {α : Type} (m1 m2 : List (String × α)) (k : String)
    (h : ∀ q ∈ m1, q.1 ≠ k) : mapGet (m1 ++ m2) k = mapGet m2 k := by
  unfold mapGet
  rw [List.find?_append]
  have h1 : m1.find? (fun p => p.1 = k) = none := by
    rw [List.find?_eq_none]
    intro x hx
    simpa using h x hx
  rw [h1]
  rfl

theorem mapSet_append_left {α : Type} (m1 m2 : List (String × α)) (k : String)
    (v : α) (h : ∀ q ∈ m1, q.1 ≠ k) :
    mapSet (m1 ++ m2) k v = m1 ++ mapSet m2 k v := by
  have h1 : m1.any (fun p => p.1 = k) = false := by
    rw [List.any_eq_false]
    intro x hx
    simpa using h x hx
  have happ : (m1 ++ m2).any (fun p => p.1 = k) = m2.any (fun p => p.1 = k) := by
    rw [List.any_append, h1]
    simp
  by_cases h2 : m2.any (fun p => p.1 = k)
  · simp only [mapSet, happ, h2, if_true, List.map_append]
    have hid : ∀ m : List (String × α), (∀ q ∈ m, q.1 ≠ k) →
        List.map (fun p => if p.1 = k then (k, v) else p) m = m := by
      intro m
      induction m with
      | nil => intro _; rfl
      | cons q m ih2 =>
        intro hm
        simp only [List.map_cons]
        rw [if_neg (hm q (List.mem_cons_self q m)),
          ih2 (fun q2 hq2 => hm q2 (List.mem_cons_of_mem q hq2))]
    rw [hid m1 h]
  · have h2f : m2.any (fun p => p.1 = k) = false := by
      revert h2
      cases m2.any (fun p => p.1 = k) <;> simp
    simp only [mapSet, happ, h2f, Bool.false_eq_true, if_false, List.append_assoc]

theorem insertPath_append (f1 f2 : List (String × Json)) (h0 : String)
    (t : List String) (v : String) (hfresh : ∀ q ∈ f1, q.1 ≠ h0) :
    insertPath (f1 ++ f2) (h0 :: t) v = f1 ++ insertPath f2 (h0 :: t) v := by
  cases t with
  | nil => exact mapSet_append_left f1 f2 h0 (.str v) hfresh
  | cons t1 t2 =>
    simp only [insertPath]
    rw [mapGet_append_left_none f1 f2 h0 hfresh]
    split
    · exact mapSet_append_left f1 f2 h0 _ hfresh
    · exact mapSet_append_left f1 f2 h0 _ hfresh

theorem foldl_insert_append (ps : List (List String × String))
    (f1 : List (String × Json)) :
    ∀ f2 : List (String × Json),
      (∀ pv ∈ ps, ∃ h0 t, pv.1 = h0 :: t ∧ ∀ q ∈ f1, q.1 ≠ h0) →
      ps.foldl (fun fl pv => insertPath fl pv.1 pv.2) (f1 ++ f2)
        = f1 ++ ps.foldl (fun fl pv => insertPath fl pv.1 pv.2) f2 := by
  induction ps with
  | nil => intro f2 _; simp
  | cons pv ps ih =>
    intro f2 hh
    obtain ⟨h0, t, he, hf⟩ := hh pv (List.mem_cons_self pv ps)
    simp only [List.foldl_cons]
    rw [he, insertPath_append f1 f2 h0 t pv.2 hf]
    exact ih _ (fun pv2 hpv2 => hh pv2 (List.mem_cons_of_mem pv hpv2))

theorem mapSet_singleton_same (k : String) (x y : Json) :
    mapSet [(k, x)] k y = [(k, y)] := by
  simp [mapSet, List.any]

theorem foldl_insert_group (ps : List (List String × String)) (k : String) :
    ∀ t : List (String × Json),
      (∀ pv ∈ ps, pv.1 ≠ []) →
      (ps.map (fun pv => ((k :: pv.1, pv.2) : List String × String))).foldl
          (fun fl pv => insertPath fl pv.1 pv.2) [(k, Json.obj t)]
        = [(k, Json.obj (ps.foldl
            (fun fl pv => insertPath fl pv.1 pv.2) t))] := by
  induction ps with
  | nil => intro t _; simp
  | cons pv ps ih =>
    intro t hne
    simp only [List.map_cons, List.foldl_cons]
    have hpv : pv.1 ≠ [] := hne pv (List.mem_cons_self pv ps)
    have hstep : insertPath [(k, Json.obj t)] (k :: pv.1) pv.2
        = [(k, Json.obj (insertPath t pv.1 pv.2))] := by
      cases hp : pv.1 with
      | nil => exact absurd hp hpv
      | cons p1 p2 =>
        simp only [insertPath]
        have hget : mapGet [(k, Json.obj t)] k = some (Json.obj t) := by
          simp [mapGet, List.find?]
        rw [hget]
        show mapSet [(k, Json.obj t)] k (Json.obj (insertPath t (p1 :: p2) pv.2)) = _
        rw [mapSet_singleton_same]
    rw [hstep]
    exact ih _ (fun pv2 hpv2 => hne pv2 (List.mem_cons_of_mem pv hpv2))

theorem flatPaths_ne_nil (fields : List (String × Json))
    (hwf : wfFields fields = true) (hne : fields ≠ []) :
    flatPaths fields ≠ [] := by
  induction fields using flatPaths.induct with
  | case1 => exact absurd rfl hne
  | case2 k s rest ih => simp [flatPaths]
  | case3 k sub rest ihsub ihrest =>
    obtain ⟨_, _, hv, _, hrest⟩ := wfFields_cons _ _ _ hwf
    have hsubwf : wfFields sub = true := by
      simp only [wfValue, Bool.and_eq_true] at hv
      exact hv.2
    have hsubne : sub ≠ [] := by
      simp only [wfValue, Bool.and_eq_true] at hv
      have := hv.1
      simpa [List.isEmpty_iff] using this
    have hsubp := ihsub hsubwf hsubne
    simp only [flatPaths]
    intro hcontra
    rcases List.append_eq_nil.mp hcontra with ⟨hmap, _⟩
    exact hsubp (List.map_eq_nil_iff.mp hmap)
  | case4 head rest h1 h2 ih =>
    obtain ⟨k, v⟩ := head
    obtain ⟨_, _, hv, _, hrest⟩ := wfFields_cons _ _ _ hwf
    cases v with
    | str s => exact absurd rfl (h1 k s)
    | obj sub => exact absurd rfl (h2 k sub)
    | num n => simp [wfValue] at hv
    | bool b => simp [wfValue] at hv
    | null => simp [wfValue] at hv



theorem nest_flatPaths (fields : List (String × Json))
    (hwf : wfFields fields = true) :
    (flatPaths fields).foldl (fun fl pv => insertPath fl pv.1 pv.2) [] = fields := by
  induction fields using flatPaths.induct with
  | case1 => simp [flatPaths]
  | case2 k s rest ih =>
    obtain ⟨_, _, _, hne, hrest⟩ := wfFields_cons _ _ _ hwf
    simp only [flatPaths, List.foldl_cons]
    have h0 : insertPath [] [k] s = [(k, Json.str s)] := by
      simp [insertPath, mapSet]
    rw [h0]
    have h1 := foldl_insert_append (flatPaths rest) [(k, Json.str s)] []
      (fun pv hpv => by
        obtain ⟨k2, t2, he, hm⟩ := flatPaths_head_key rest pv hpv
        obtain ⟨q, hq, hqe⟩ := List.mem_map.mp hm
        refine ⟨k2, t2, he, fun q2 hq2 => ?_⟩
        have hq2e : q2 = (k, Json.str s) := by simpa using hq2
        rw [hq2e]
        intro hh
        exact hne q hq (hqe.trans hh.symm))
    simp only [List.nil_append, List.singleton_append] at h1 ⊢
    rw [h1, ih hrest]
  | case3 k sub rest ihsub ihrest =>
    obtain ⟨_, _, hv, hne, hrest⟩ := wfFields_cons _ _ _ hwf
    have hsub : wfFields sub = true := by
      simp only [wfValue, Bool.and_eq_true] at hv
      exact hv.2
    have hsubne : sub ≠ [] := by
      simp only [wfValue, Bool.and_eq_true] at hv
      simpa [List.isEmpty_iff] using hv.1
    have psubne := flatPaths_ne_nil sub hsub hsubne
    simp only [flatPaths, List.foldl_append]
    obtain ⟨p0, ps', hps⟩ := List.exists_cons_of_ne_nil psubne
    rw [hps]
    simp only [List.map_cons, List.foldl_cons]
    have hp0ne : p0.1 ≠ [] :=
      flatPaths_ne_nil_path sub p0 (by rw [hps]; exact List.mem_cons_self p0 ps')
    have hfirst : insertPath [] (k :: p0.1) p0.2
        = [(k, Json.obj (insertPath [] p0.1 p0.2))] := by
      cases hp : p0.1 with
      | nil => exact absurd hp hp0ne
      | cons a b =>
        simp only [insertPath]
        have hg : mapGet ([] : List (String × Json)) k = none := rfl
        rw [hg]
        show mapSet [] k (Json.obj (insertPath [] (a :: b) p0.2)) = _
        simp [mapSet]
    rw [hfirst]
    rw [foldl_insert_group ps' k (insertPath [] p0.1 p0.2)
      (fun pv hpv => flatPaths_ne_nil_path sub pv
        (by rw [hps]; exact List.mem_cons_of_mem p0 hpv))]
    have hfold : ps'.foldl (fun fl pv => insertPath fl pv.1 pv.2)
        (insertPath [] p0.1 p0.2)
        = (flatPaths sub).foldl (fun fl pv => insertPath fl pv.1 pv.2) [] := by
      rw [hps]
      rfl
    rw [hfold, ihsub hsub]
    have h1 := foldl_insert_append (flatPaths rest) [(k, Json.obj sub)] []
      (fun pv hpv => by
        obtain ⟨k2, t2, he, hm⟩ := flatPaths_head_key rest pv hpv
        obtain ⟨q, hq, hqe⟩ := List.mem_map.mp hm
        refine ⟨k2, t2, he, fun q2 hq2 => ?_⟩
        have hq2e : q2 = (k, Json.obj sub) := by simpa using hq2
        rw [hq2e]
        intro hh
        exact hne q hq (hqe.trans hh.symm))
    simp only [List.nil_append, List.singleton_append] at h1 ⊢
    rw [h1, ihrest hrest]
  | case4 head rest h1 h2 ih =>
    obtain ⟨k, v⟩ := head
    obtain ⟨_, _, hv, _, hrest⟩ := wfFields_cons _ _ _ hwf
    cases v with
    | str s => exact absurd rfl (h1 k s)
    | obj sub => exact absurd rfl (h2 k sub)
    | num n => simp [wfValue] at hv
    | bool b => simp [wfValue] at hv
    | null => simp [wfValue] at hv

/-- C3 (amended): for a JSON object whose keys are dot-free and
distinct within each object, whose keys holding sub-objects are
non-empty, and whose values are string leaves or non-empty such
objects, `objectToMap` succeeds with the pure flattening `flatF`, and
re-nesting that flat map by splitting each key on `.` (`nestFromSpec`,
modelled from the spec) reconstructs the input object exactly. -/
theorem flatten_nest_roundtrip (fields : List (String × Json))
    (hwf : wfFields fields = true) :
    objectToMap (.obj fields) none = .ok (flatF fields none) ∧
      nestFromSpec (flatF fields none) = .obj fields := by
  constructor
  · show objFields fields none [] = _
    rw [objFields_ok fields none [] hwf
      (fun e _ q hq => absurd hq (List.not_mem_nil q))]
    rfl
  · unfold nestFromSpec
    rw [flatF_eq fields none hwf, List.foldl_map]
    have hconv := List.foldl_ext
      (fun (fl : List (String × Json)) (pv : List String × String) =>
        insertPath fl (splitDots (composeKey none (joinChar "." pv.1))) pv.2)
      (fun fl pv => insertPath fl pv.1 pv.2)
      ([] : List (String × Json))
      (by
        intro a pv hpv
        show insertPath a (splitDots (composeKey none (joinChar "." pv.1))) pv.2
          = insertPath a pv.1 pv.2
        have h1 : composeKey none (joinChar "." pv.1) = joinChar "." pv.1 := rfl
        rw [h1, splitDots_joinDots pv.1 (flatPaths_ne_nil_path fields pv hpv)
          (fun s hs => flatPaths_dotFree fields hwf pv hpv s hs)])
    rw [hconv, nest_flatPaths fields hwf]


/-- C3 counterexample, two instances with all-string leaves.  The
dotted key `"a.b"` flattens to the map `"a.b" ↦ "x"`, but re-nesting
by splitting keys on `.` produces the two-level object `{a: {b: "x"}}`,
not the input.  And an empty key holding a sub-object, as in
`{"": {a: "x"}}`, makes the recursive call's `recursiveKey` the empty
string — falsy in JS, so no prefix is composed: the object flattens to
`a ↦ "x"` and re-nests to `{a: "x"}`, not the input. -/
theorem c3_counterexample :
    (objectToMap (.obj [("a.b", .str "x")]) none = .ok [("a.b", "x")] ∧
      nestFromSpec [("a.b", "x")] = .obj [("a", .obj [("b", .str "x")])] ∧
      Json.obj [("a", .obj [("b", .str "x")])] ≠ .obj [("a.b", .str "x")]) ∧
      (objectToMap (.obj [("", .obj [("a", .str "x")])]) none = .ok [("a", "x")] ∧
        nestFromSpec [("a", "x")] = .obj [("a", .str "x")] ∧
        Json.obj [("a", .str "x")] ≠ .obj [("", .obj [("a", .str "x")])]) :=
  ⟨⟨rfl, rfl, Json.ne_of_beq_false rfl⟩, ⟨rfl, rfl, Json.ne_of_beq_false rfl⟩⟩

/-- C3 witness: the spec's own example object round-trips. -/
theorem flatten_nest_roundtrip_witness :
    wfFields c3Example = true ∧
      (objectToMap (.obj c3Example) none = .ok (flatF c3Example none) ∧
        nestFromSpec (flatF c3Example none) = .obj c3Example) :=
  ⟨by decide, flatten_nest_roundtrip c3Example (by decide)⟩

end I18n
